import Mathlib

/-!
Verification development for the content-intelligence core of the repository:
the candidate segmentation and scoring engine (`src/services/segmentation-v2.ts`)
and the speaker-aware framing engine (the crop-map service).

Modelling conventions for the shallow embedding:
* JavaScript `number` is modelled by `ℚ` (times, scores, coordinates); values that
  the source rounds to integers (`Math.round`, crop pixels) are modelled by `ℤ`.
* `Math.round` is `jsRound q = ⌊q + 1/2⌋` (JS rounds half toward +∞);
  `Math.floor`/`Math.ceil` are `Int.floor`/`Int.ceil`.
* Strings are modelled by Lean `String`; `toLowerCase` is modelled by ASCII
  lowercasing (`Char.toLower`), which agrees with JS on the ASCII inputs used here.
  The source's regular expressions are hand-translated to character-list scanners;
  JS `\w` is `[A-Za-z0-9_]`, JS `\s` is modelled by `Char.isWhitespace`.
* `Array.prototype.sort` (stable since ES2019) is modelled by a stable insertion
  sort `jsSortBy lt`, with `lt a b` iff the JS comparator returns a negative number.
* Environment-variable configuration (`FRAMING_SAMPLE_FPS`,
  `FRAMING_MIN_SPEAKER_HOLD_MS`, `FRAMING_TORSO_MULTIPLIER`) is modelled at its
  documented defaults (3 fps, 600 ms, 2.7), i.e. with the variables unset.
-/

/- The Batteries rational-arithmetic primitives are `@[irreducible]`, which keeps
the `decide` tactic from evaluating concrete pipeline runs; restore their default
reducibility for this file so that concrete witnesses can be checked by `decide`. -/
attribute [local semireducible] Rat.ofScientific Rat.mul Rat.inv Rat.add Rat.sub

/-- JS `Math.round`: round half toward positive infinity. -/
def jsRound (q : ℚ) : ℤ := ⌊q + 1/2⌋

/-- JS stable insertion of `x` into `acc`: `x` is placed before the first element
`y` with `lt x y`; among comparator-equal elements a newly inserted (originally
later) element lands after the existing ones, as in a stable sort. -/
def jsInsert (lt : α → α → Bool) (x : α) : List α → List α
  | [] => [x]
  | y :: ys => if lt x y then x :: y :: ys else y :: jsInsert lt x ys

/-- JS `Array.prototype.sort` with comparator `c`, where `lt a b ↔ c a b < 0`:
a stable sort modelled by left-to-right insertion. -/
def jsSortBy (lt : α → α → Bool) (l : List α) : List α :=
  l.foldl (fun acc x => jsInsert lt x acc) []

namespace JsStr

/-- JS `\w` character class: `[A-Za-z0-9_]`. -/
def isWordChar (c : Char) : Bool := c.isAlpha || c.isDigit || c = '_'

/-- JS `String.prototype.toLowerCase`, restricted to ASCII. -/
def lower (s : String) : String := String.mk (s.data.map Char.toLower)

/-- JS `String.prototype.trim`: strip leading and trailing whitespace. -/
def trim (s : String) : String :=
  String.mk (((s.data.dropWhile Char.isWhitespace).reverse.dropWhile
    Char.isWhitespace).reverse)

/-- JS `Array.prototype.join(' ')`. -/
def joinSpace (l : List String) : String :=
  String.mk (((l.map String.data).intersperse [' ']).flatten)

/-- Match `pat` at the head of `cs`; return the remainder on success. -/
def leadMatch : List Char → List Char → Option (List Char)
  | [], cs => some cs
  | _ :: _, [] => none
  | p :: ps, c :: cs => if p = c then leadMatch ps cs else none

/-- Anchored prefix test (regex `^pat`), on raw characters. -/
def atStart (pat : String) (s : String) : Bool := (leadMatch pat.data s.data).isSome

/-- Unanchored substring test (JS `String.prototype.includes`). -/
def subFind (pat : List Char) : List Char → Bool
  | [] => (leadMatch pat []).isSome
  | c :: cs => (leadMatch pat (c :: cs)).isSome || subFind pat cs

/-- JS `a.includes(b)`. -/
def includes (s pat : String) : Bool := subFind pat.data s.data

/-- Regex `^(kw)\s` for one alternative `kw`: the keyword followed by a whitespace
character. -/
def atStartThenWs (kw : String) (s : String) : Bool :=
  match leadMatch kw.data s.data with
  | some (c :: _) => c.isWhitespace
  | _ => false

/-- Regex `^(kw)\b` for one alternative `kw`: the keyword followed by a non-word
character or the end of the string. -/
def atStartThenBoundary (kw : String) (s : String) : Bool :=
  match leadMatch kw.data s.data with
  | some [] => true
  | some (c :: _) => !isWordChar c
  | none => false

/-- One scanning step for regex `\b(kw)\b` (all-word-character `kw`): somewhere in
the string, `kw` preceded by a non-word character (or the start) and followed by a
non-word character (or the end). `prevW` records whether the previous character was
a word character. -/
def wordBoundedAux (kw : List Char) (prevW : Bool) : List Char → Bool
  | [] => !prevW && (leadMatch kw []).isSome
  | c :: cs =>
      (!prevW &&
        (match leadMatch kw (c :: cs) with
         | some [] => true
         | some (d :: _) => !isWordChar d
         | none => false)) ||
      wordBoundedAux kw (isWordChar c) cs

/-- Regex `\b(kw)\b` as a whole-string test (case handled by the caller). -/
def wordBounded (kw : String) (s : String) : Bool :=
  wordBoundedAux kw.data false s.data

/-- One scanning step for regex `\b\d+\b`: a digit run preceded and followed by a
non-word character or a string edge. -/
def hasNumTokenAux (prevW : Bool) : List Char → Bool
  | [] => false
  | c :: cs =>
      (c.isDigit && !prevW &&
        (match (c :: cs).dropWhile Char.isDigit with
         | [] => true
         | d :: _ => !isWordChar d)) ||
      hasNumTokenAux (isWordChar c) cs

/-- Regex `\b\d+\b`. -/
def hasNumToken (s : String) : Bool := hasNumTokenAux false s.data

/-- Does the string contain a character from the set (regex `[..]` test)? -/
def containsAny (set : List Char) (s : String) : Bool :=
  s.data.any (fun c => set.contains c)

/-- Count the characters of `s` belonging to `set` (JS `s.match(/[..]/g)?.length`). -/
def countChars (set : List Char) (s : String) : Nat :=
  (s.data.filter (fun c => set.contains c)).length

/-- Regex `[A-Z]{2,}`: two consecutive ASCII uppercase letters somewhere. -/
def hasTwoUpper : List Char → Bool
  | [] => false
  | [_] => false
  | a :: b :: cs => (a.isUpper && b.isUpper) || hasTwoUpper (b :: cs)

/-- Suffix test (regex `pat$`), on raw characters. -/
def endsWithStr (pat : String) (s : String) : Bool :=
  (leadMatch pat.data.reverse s.data.reverse).isSome

/-- Last character of the string belongs to the set (regex `[..]$`). -/
def lastCharIn (set : List Char) (s : String) : Bool :=
  match s.data.reverse with
  | [] => false
  | c :: _ => set.contains c

/-- One step of the whitespace tokenizer: accumulate the finished groups and the
characters of the current (reversed) group. -/
def splitWsStep (st : List String × List Char) (c : Char) : List String × List Char :=
  if c.isWhitespace then
    match st.2 with
    | [] => st
    | t => (st.1 ++ [String.mk t.reverse], [])
  else (st.1, c :: st.2)

/-- Split a character list into its maximal whitespace-free groups. -/
def splitWsGroups (cs : List Char) : List String :=
  let fin := cs.foldl splitWsStep ([], [])
  fin.1 ++ (match fin.2 with | [] => [] | t => [String.mk t.reverse])

/-- JS `s.split(/\s+/)`: the empty string yields `[""]`; a leading or trailing
whitespace run contributes an empty token at the corresponding end. -/
def jsSplitWs (s : String) : List String :=
  match s.data with
  | [] => [""]
  | c :: cs =>
      (if c.isWhitespace then [""] else []) ++ splitWsGroups (c :: cs) ++
      (if ((c :: cs).getLast (by simp)).isWhitespace then [""] else [])

end JsStr

namespace SegV2

/-- `TranscriptWord` from `services/openai.ts`. `end` is a Lean keyword, so the
field is named `endSec`. -/
structure TranscriptWord where
  word : String
  start : ℚ
  endSec : ℚ
deriving DecidableEq, Repr

/-- `TranscriptSegment` from `services/openai.ts`. -/
structure TranscriptSegment where
  text : String
  start : ℚ
  endSec : ℚ
  words : List TranscriptWord
deriving DecidableEq, Repr

/-- `SceneChange` from `services/ffmpeg.ts`. -/
structure SceneChange where
  timeSec : ℚ
deriving DecidableEq, Repr

/-- `Chapter` from the YouTube service (title plus start/end seconds; the optional
raw `start_time`/`end_time` fields are never read by the segmentation engine). -/
structure Chapter where
  title : String
  startSec : ℚ
  endSec : ℚ
deriving DecidableEq, Repr

/-- The `'short30' | 'mid45' | 'long60'` union used by `EnhancedSegment.durationChoice`. -/
inductive DurationChoice where
  | short30
  | mid45
  | long60
deriving DecidableEq, Repr

/-- `SegmentFeatures` from `segmentation-v2.ts`. -/
structure SegmentFeatures where
  hookScore : ℚ
  retentionScore : ℚ
  clarityScore : ℚ
  visualScore : ℚ
  noveltyScore : ℚ
  engagementScore : ℚ
  safetyScore : ℚ
  speechRate : ℚ
  pauseDensity : ℚ
  energyLevel : ℚ
  hasQuestion : Bool
  hasBoldClaim : Bool
  hasNumbers : Bool
  sceneChangeCount : ℕ
  wordCount : ℕ
  coherenceScore : ℚ
  closureScore : ℚ
  arcScore : ℚ
  semanticDensity : ℚ
deriving DecidableEq, Repr

/-- `EnhancedSegment` from `segmentation-v2.ts` (the optional `chapterTitle` is
modelled as always present, as both window generators supply it). -/
structure EnhancedSegment where
  startSec : ℚ
  endSec : ℚ
  durationSec : ℚ
  words : List TranscriptWord
  text : String
  hook : String
  score : ℚ
  features : SegmentFeatures
  rationaleShort : String
  durationChoice : DurationChoice
  chapterTitle : String
deriving DecidableEq, Repr

/-- A candidate search window (`{ start, end, chapterTitle }`). -/
structure CandWindow where
  start : ℚ
  endSec : ℚ
  chapterTitle : String
deriving DecidableEq, Repr

/-- Placeholder word for total list indexing; only read out of bounds, which the
source never does on the paths modelled here. -/
def dummyWord : TranscriptWord := ⟨"", 0, 0⟩

/-- `detectHookPatterns`: regex-classified question opener (`^(how|what|...)\s`
case-insensitively, or a `?` anywhere). -/
def questionStarters : List String :=
  ["how", "what", "why", "when", "where", "who", "can", "will", "should",
   "is", "are", "do", "does", "did"]

/-- `detectHookPatterns` bold-claim pattern 1: `^(this is|here's|...)/i`. -/
def boldClaimStarts1 : List String :=
  ["this is", "here's", "the best", "the worst", "never", "always",
   "you need", "you must", "don't", "stop"]

/-- `detectHookPatterns` bold-claim pattern 2: `^(secret|truth|...)/i`. -/
def boldClaimStarts2 : List String :=
  ["secret", "truth", "fact", "proven", "guaranteed", "ultimate", "perfect"]

/-- `detectHookPatterns` bold-claim pattern 3 alternatives: `(vs\.|versus|vs|compared to)/i`,
an unanchored substring test. -/
def boldClaimSubs3 : List String := ["vs.", "versus", "vs", "compared to"]

/-- `detectHookPatterns` bold-claim pattern 4: `^(shocking|amazing|...)/i`. -/
def boldClaimStarts4 : List String :=
  ["shocking", "amazing", "incredible", "unbelievable"]

/-- `detectHookPatterns(text)` from `segmentation-v2.ts`. All patterns carry the
`i` flag, modelled by lowercasing the text first. -/
def detectHookPatterns (text : String) : Bool × Bool × Bool :=
  let lo := JsStr.lower text
  let hasQuestion :=
    questionStarters.any (fun kw => JsStr.atStartThenWs kw lo) ||
    JsStr.containsAny ['?'] text
  let hasBoldClaim :=
    boldClaimStarts1.any (fun kw => JsStr.atStart kw lo) ||
    boldClaimStarts2.any (fun kw => JsStr.atStart kw lo) ||
    boldClaimSubs3.any (fun kw => JsStr.includes lo kw) ||
    boldClaimStarts4.any (fun kw => JsStr.atStart kw lo)
  let hasNumbers := JsStr.hasNumToken text
  (hasQuestion, hasBoldClaim, hasNumbers)

/-- Sum of the non-negative inter-word gaps of consecutive words
(`analyzeSpeechDynamics` accumulation loop). -/
def totalGapOf : List TranscriptWord → ℚ
  | [] => 0
  | [_] => 0
  | a :: b :: rest => max 0 (b.start - a.endSec) + totalGapOf (b :: rest)

/-- An "energetic" word: `/[A-Z]{2,}/`, `/[!?]/`, or more than 8 characters. -/
def isEnergyWord (w : TranscriptWord) : Bool :=
  JsStr.hasTwoUpper w.word.data || JsStr.containsAny ['!', '?'] w.word ||
  decide (w.word.length > 8)

/-- `analyzeSpeechDynamics(words, startSec)`: speech rate, pause density and
energetic-word ratio over the words starting in the first 5 seconds. -/
def analyzeSpeechDynamics (words : List TranscriptWord) (startSec : ℚ) :
    ℚ × ℚ × ℚ :=
  if words.isEmpty then (0, 1, 0)
  else
    let first5sWords := words.filter (fun w => w.start - startSec < 5)
    if first5sWords.isEmpty then (0, 1, 0)
    else
      let duration :=
        max (1/10) ((first5sWords.getLastD dummyWord).endSec -
          (first5sWords.headD dummyWord).start)
      let rate := (first5sWords.length : ℚ) / duration
      let pauseDensity := totalGapOf first5sWords / duration
      let energyWords := (first5sWords.filter isEnergyWord).length
      let energy := (energyWords : ℚ) / (first5sWords.length : ℚ)
      (rate, pauseDensity, energy)

/-- The stop-word set `STOP_WORDS` of `segmentation-v2.ts`. -/
def STOP_WORDS : List String :=
  ["a", "about", "above", "after", "again", "against", "all", "am", "an", "and", "any", "are", "aren't", "as", "at",
   "be", "because", "been", "before", "being", "below", "between", "both", "but", "by",
   "could", "couldn't",
   "did", "didn't", "do", "does", "doesn't", "doing", "don't", "down", "during",
   "each", "few", "for", "from", "further",
   "had", "hadn't", "has", "hasn't", "have", "haven't", "having", "he", "he'd", "he'll", "he's", "her", "here", "here's",
   "hers", "herself", "him", "himself", "his", "how", "how's",
   "i", "i'd", "i'll", "i'm", "i've", "if", "in", "into", "is", "isn't", "it", "it's", "its", "itself",
   "let's",
   "me", "more", "most", "mustn't", "my", "myself",
   "no", "nor", "not",
   "of", "off", "on", "once", "only", "or", "other", "ought", "our", "ours", "ourselves", "out", "over", "own",
   "same", "shan't", "she", "she'd", "she'll", "she's", "should", "shouldn't", "so", "some", "such",
   "than", "that", "that's", "the", "their", "theirs", "them", "themselves", "then", "there", "there's", "these", "they",
   "they'd", "they'll", "they're", "they've", "this", "those", "through", "to", "too",
   "under", "until", "up",
   "very",
   "was", "wasn't", "we", "we'd", "we'll", "we're", "we've", "were", "weren't", "what", "what's", "when", "when's", "where",
   "where's", "which", "while", "who", "who's", "whom", "why", "why's", "with", "won't", "would", "wouldn't",
   "you", "you'd", "you'll", "you're", "you've", "your", "yours", "yourself", "yourselves"]

/-- `w.replace(/[^a-z0-9']/gi, '')`: keep ASCII letters, digits and apostrophes. -/
def cleanWord (s : String) : String :=
  String.mk (s.data.filter (fun c => c.isAlpha || c.isDigit || c = '\''))

/-- A filler word: `/^(um|uh|like|you know|sort of|kind of)$/i` on the trimmed word. -/
def isFillerWord (w : TranscriptWord) : Bool :=
  ["um", "uh", "like", "you know", "sort of", "kind of"].contains
    (JsStr.lower (JsStr.trim w.word))

/-- Profanity pattern `\b(fuck|shit|damn|hell|ass|bitch)\b/i`. -/
def hasProfanity (text : String) : Bool :=
  ["fuck", "shit", "damn", "hell", "ass", "bitch"].any
    (fun kw => JsStr.wordBounded kw (JsStr.lower text))

/-- Closing/payoff phrases checked inside the final window. -/
def closurePhrases : List String :=
  ["that's why", "so you can", "and that's", "that's how", "in the end", "the point is"]

/-- Resolution keywords for the narrative-arc feature. -/
def resolutionKeywords : List String :=
  ["because", "so", "that's why", "that means", "which means", "therefore", "result", "here's"]

/-- Payoff keywords for the narrative-arc feature. -/
def payoffKeywords : List String :=
  ["so you can", "that's how", "in the end", "the reason", "the secret", "so the", "what happens"]

/-- Early-question word test: `/\?$/` or `/^(how|why|what|when|where|who|can|should|would)\b/i`. -/
def isEarlyQuestionWord (w : TranscriptWord) : Bool :=
  JsStr.lastCharIn ['?'] w.word ||
  ["how", "why", "what", "when", "where", "who", "can", "should", "would"].any
    (fun kw => JsStr.atStartThenBoundary kw (JsStr.lower w.word))

/-- `calculateSegmentFeatures(words, startSec, endSec, sceneChanges, hotspots)`,
transcribed clause by clause from `segmentation-v2.ts`. -/
def calculateSegmentFeatures (words : List TranscriptWord) (startSec endSec : ℚ)
    (sceneChanges : List SceneChange) (hotspots : List ℚ) : SegmentFeatures :=
  let text := JsStr.joinSpace (words.map (·.word))
  let hook :=
    JsStr.trim (JsStr.joinSpace ((words.filter (fun w => w.start - startSec < 3)).map (·.word)))
  let lowerWords := words.map (fun w => JsStr.lower w.word)
  let cleanedWords := lowerWords.map cleanWord
  let contentWords :=
    cleanedWords.filter (fun w => decide (w.length > 2) && !(STOP_WORDS.contains w))
  let semanticDensity :=
    min 1 ((contentWords.length : ℚ) / max 1 (words.length : ℚ))
  let patterns := detectHookPatterns (if hook = "" then String.mk (text.data.take 100) else hook)
  let hasQuestion := patterns.1
  let hasBoldClaim := patterns.2.1
  let hasNumbers := patterns.2.2
  let dynamics := analyzeSpeechDynamics words startSec
  let rate := dynamics.1
  let pauseDensity := dynamics.2.1
  let energy := dynamics.2.2
  let sceneChangesInSegment :=
    (sceneChanges.filter (fun s => startSec ≤ s.timeSec && s.timeSec ≤ endSec)).length
  let hookScore0 : ℚ := 0.5
  let hookScore1 := if hasQuestion then hookScore0 + 0.2 else hookScore0
  let hookScore2 := if hasBoldClaim then hookScore1 + 0.2 else hookScore1
  let hookScore3 := if hasNumbers then hookScore2 + 0.1 else hookScore2
  let hookScore4 := if energy > 0.3 then hookScore3 + 0.15 else hookScore3
  let hookScore5 := if rate > 2.5 then hookScore4 + 0.1 else hookScore4
  let hookScore := min 1 hookScore5
  let retentionScore0 : ℚ := 0.5
  let retentionScore1 := if rate > 2 then retentionScore0 + 0.2 else retentionScore0
  let retentionScore2 := if pauseDensity < 0.2 then retentionScore1 + 0.15 else retentionScore1
  let retentionScore3 :=
    if 2 ≤ sceneChangesInSegment && sceneChangesInSegment ≤ 4 then retentionScore2 + 0.15
    else retentionScore2
  let retentionScore := min 1 retentionScore3
  let fillerWords := (words.filter isFillerWord).length
  let fillerRatio := (fillerWords : ℚ) / max 1 (words.length : ℚ)
  let clarityScore := max 0 (1 - fillerRatio * 2)
  let visualScore : ℚ :=
    if 1 ≤ sceneChangesInSegment && sceneChangesInSegment ≤ 6 then 0.8 else 0.5
  let noveltyScore : ℚ := 0.6
  let nearHotspot := hotspots.any (fun h => |h - startSec| < 30)
  let engagementScore : ℚ := if nearHotspot then 0.8 else 0.4
  let safetyScore : ℚ := if hasProfanity text then 0.3 else 0.9
  let sentenceEnders := JsStr.countChars ['.', '!', '?'] text
  let sentences : ℚ :=
    max 1 (if sentenceEnders = 0 then ((⌈(endSec - startSec) / 7⌉ : ℤ) : ℚ)
           else (sentenceEnders : ℚ))
  let avgWordsPerSentence := (words.length : ℚ) / sentences
  let coherenceScore0 : ℚ := 0.55
  let coherenceScore1 :=
    if 8 ≤ avgWordsPerSentence && avgWordsPerSentence ≤ 28 then coherenceScore0 + 0.2
    else coherenceScore0
  let coherenceScore2 :=
    if semanticDensity > 0.55 then coherenceScore1 + 0.15 else coherenceScore1
  let coherenceScore3 :=
    if fillerRatio < 0.12 then coherenceScore2 + 0.1 else coherenceScore2
  let coherenceScore4 :=
    if clarityScore > 0.75 then coherenceScore3 + 0.05 else coherenceScore3
  let coherenceScore := min 1 (max 0.3 coherenceScore4)
  let closingWindow := words.filter (fun w => endSec - w.endSec < 4)
  let closingText := JsStr.joinSpace (closingWindow.map (fun w => JsStr.lower w.word))
  let lastWord :=
    match closingWindow.getLast? with
    | some w => w.word
    | none => match words.getLast? with
              | some w => w.word
              | none => ""
  let hasHardStop := JsStr.lastCharIn ['.', '!', '?', '…'] (JsStr.trim lastWord)
  let trailingFiller :=
    ["um", "uh", "like"].any (fun kw => JsStr.endsWithStr kw (JsStr.lower (JsStr.trim lastWord)))
  let closureScore0 : ℚ := 0.45
  let closureScore1 := if hasHardStop then closureScore0 + 0.25 else closureScore0
  let closureScore2 :=
    if closurePhrases.any (fun p => JsStr.includes closingText p) then closureScore1 + 0.15
    else closureScore1
  let closureScore3 :=
    if !closingWindow.isEmpty &&
        closingWindow.any (fun w =>
          ["so", "therefore", "meaning"].any
            (fun kw => JsStr.wordBounded kw (JsStr.lower w.word))) then
      closureScore2 + 0.1
    else closureScore2
  let closureScore4 := if trailingFiller then closureScore3 - 0.15 else closureScore3
  let closureScore := min 1 (max 0.2 closureScore4)
  let lowerText := JsStr.lower text
  let hasResolutionKeyword := resolutionKeywords.any (fun kw => JsStr.includes lowerText kw)
  let hasPayoff := payoffKeywords.any (fun kw => JsStr.includes lowerText kw)
  let earlyQuestion :=
    (words.filter (fun w => w.start - startSec < 6)).any isEarlyQuestionWord
  let arcScore0 : ℚ := 0.45
  let arcScore1 := if hasQuestion || earlyQuestion then arcScore0 + 0.2 else arcScore0
  let arcScore2 := if hasResolutionKeyword then arcScore1 + 0.2 else arcScore1
  let arcScore3 := if hasPayoff then arcScore2 + 0.1 else arcScore2
  let arcScore4 := if closureScore > 0.7 then arcScore3 + 0.05 else arcScore3
  let arcScore := min 1 (max 0.25 arcScore4)
  { hookScore := hookScore
    retentionScore := retentionScore
    clarityScore := clarityScore
    visualScore := visualScore
    noveltyScore := noveltyScore
    engagementScore := engagementScore
    safetyScore := safetyScore
    speechRate := rate
    pauseDensity := pauseDensity
    energyLevel := energy
    hasQuestion := hasQuestion
    hasBoldClaim := hasBoldClaim
    hasNumbers := hasNumbers
    sceneChangeCount := sceneChangesInSegment
    wordCount := words.length
    coherenceScore := coherenceScore
    closureScore := closureScore
    arcScore := arcScore
    semanticDensity := semanticDensity }

/-- `scoreSegment(features)`: the fixed convex combination of the ten scored features. -/
def scoreSegment (features : SegmentFeatures) : ℚ :=
  0.24 * features.hookScore +
  0.18 * features.retentionScore +
  0.12 * features.clarityScore +
  0.10 * features.coherenceScore +
  0.10 * features.closureScore +
  0.08 * features.arcScore +
  0.08 * features.engagementScore +
  0.05 * features.noveltyScore +
  0.03 * features.visualScore +
  0.02 * features.safetyScore

/-- `chooseDuration(features, candidateDuration)`: the adaptive target duration and
tier choice. -/
def chooseDuration (features : SegmentFeatures) (candidateDuration : ℚ) :
    ℚ × DurationChoice :=
  let prefer0 : ℚ := min 80 (max 24 ((jsRound (candidateDuration / 5) * 5 : ℤ) : ℚ))
  let longFormSignals :=
    (features.retentionScore + features.closureScore + features.arcScore) / 3 > 0.66 &&
    features.coherenceScore > 0.63 &&
    features.semanticDensity > 0.55
  let branch : ℚ × DurationChoice :=
    if candidateDuration ≥ 65 && longFormSignals then
      (min candidateDuration 80, DurationChoice.long60)
    else if candidateDuration ≥ 45 &&
        (features.retentionScore > 0.62 || features.arcScore > 0.6) &&
        features.clarityScore > 0.55 then
      (min 55 candidateDuration, DurationChoice.mid45)
    else if features.coherenceScore < 0.55 || features.closureScore < 0.5 then
      (min 32 (max 24 (candidateDuration - 3)), DurationChoice.short30)
    else if features.engagementScore > 0.7 && candidateDuration > 40 then
      (min 50 candidateDuration, DurationChoice.mid45)
    else (prefer0, DurationChoice.short30)
  let minDuration : ℚ :=
    if features.clarityScore > 0.7 && features.coherenceScore > 0.65 then 28 else 20
  let target := max minDuration (min branch.1 candidateDuration)
  let choice :=
    if target ≥ 70 then DurationChoice.long60
    else if target ≥ 42 && branch.2 = DurationChoice.short30 then DurationChoice.mid45
    else branch.2
  (target, choice)

/-- Sentence-terminal cut test in `adjustSegmentToNarrativeBoundary`:
regex `[.!?…]$` or `--$` on the trimmed word. -/
def isSentenceCut (w : TranscriptWord) : Bool :=
  JsStr.lastCharIn ['.', '!', '?', '…'] (JsStr.trim w.word) ||
  JsStr.endsWithStr "--" (JsStr.trim w.word)

/-- The forward scan of `adjustSegmentToNarrativeBoundary`, iterating over the
word suffix that starts at index `i` (initially the cutoff index): stop with
`cutoff` when a word ends past `searchEnd` or the list runs out, or with `i` at a
sentence-terminal word or at a `≥0.8s` pause whose word already reaches `minEnd`. -/
def findCutGo (searchEnd minEnd : ℚ) (cutoff : Nat) : Nat → List TranscriptWord → Nat
  | _, [] => cutoff
  | i, w :: rest =>
      if w.endSec > searchEnd then cutoff
      else if isSentenceCut w then i
      else
        match rest with
        | nxt :: _ =>
            if nxt.start - w.endSec ≥ 0.8 && w.endSec ≥ minEnd then i
            else findCutGo searchEnd minEnd cutoff (i + 1) rest
        | [] => cutoff

/-- The under-18s advancement loop of `adjustSegmentToNarrativeBoundary`,
iterating over the word suffix that starts at index `i`: advance while the index
is not the last one and the current word ends less than 18s after `startSec`. -/
def advanceGo (startSec : ℚ) : Nat → List TranscriptWord → Nat
  | i, w :: nxt :: rest =>
      if w.endSec - startSec < 18 then advanceGo startSec (i + 1) (nxt :: rest) else i
  | i, _ => i

/-- `adjustSegmentToNarrativeBoundary(words, startSec, hardEndSec, targetDuration)`. -/
def adjustSegmentToNarrativeBoundary (words : List TranscriptWord)
    (startSec hardEndSec targetDuration : ℚ) : List TranscriptWord × ℚ :=
  if words.isEmpty then (words, startSec)
  else
    let maxEnd := min hardEndSec (startSec + 82)
    let minEnd := min maxEnd (startSec + max 18 (targetDuration - 4))
    let desiredEnd := min maxEnd (startSec + targetDuration)
    let searchEnd := min maxEnd (startSec + targetDuration + 6)
    let cutoffIndex :=
      match words.findIdx? (fun w => decide (w.endSec ≥ desiredEnd)) with
      | some i => i
      | none => words.length - 1
    let chosen0 := findCutGo searchEnd minEnd cutoffIndex cutoffIndex (words.drop cutoffIndex)
    let chosen :=
      if (words.getD chosen0 dummyWord).endSec - startSec < 18 &&
          (words.getLastD dummyWord).endSec - startSec ≥ 18 then
        advanceGo startSec chosen0 (words.drop chosen0)
      else chosen0
    let endSec := min maxEnd (words.getD chosen dummyWord).endSec
    (words.filter (fun w => decide (w.endSec ≤ endSec + 1/1000)), endSec)

/-- `generateRationale(features, score)`. -/
def generateRationale (features : SegmentFeatures) (score : ℚ) : String :=
  let reasons : List (String × ℚ) :=
    (if features.hookScore > 0.7 then [("strong hook", features.hookScore)] else []) ++
    (if features.retentionScore > 0.7 then
      [("high retention potential", features.retentionScore)] else []) ++
    (if features.clarityScore > 0.8 then [("clear message", features.clarityScore)] else []) ++
    (if features.engagementScore > 0.7 then
      [("audience engagement hotspot", features.engagementScore)] else []) ++
    (if features.coherenceScore > 0.7 then
      [("coherent storytelling", features.coherenceScore)] else []) ++
    (if features.closureScore > 0.65 then
      [("satisfying payoff", features.closureScore)] else []) ++
    (if features.arcScore > 0.65 then
      [("clear question→answer arc", features.arcScore)] else []) ++
    (if features.hasQuestion then [("question hook", 0.8)] else []) ++
    (if features.hasBoldClaim then [("bold claim", 0.75)] else []) ++
    (if 2 ≤ features.sceneChangeCount && features.sceneChangeCount ≤ 4 then
      [("good visual pacing", 0.7)] else [])
  let top3 := ((jsSortBy (fun a b => decide (b.2 < a.2)) reasons).take 3).map (·.1)
  if top3.isEmpty then "Segment scored " ++ toString (jsRound (score * 100)) ++ "/100"
  else "Strong because: " ++ String.mk (((top3.map String.data).intersperse
    [',', ' ']).flatten)

/-- The per-chapter `while (t + 25 <= c.endSec)` window loop, driven by a fuel
that strictly exceeds the possible number of iterations (`step ≥ 40`). -/
def chapterLoop (c : Chapter) (step : ℚ) : ℚ → Nat → List CandWindow
  | _, 0 => []
  | t, fuel + 1 =>
      if t + 25 ≤ c.endSec then
        ⟨t, min c.endSec (t + 82), c.title⟩ :: chapterLoop c step (t + step) fuel
      else []

/-- Windows generated for a single chapter, including the empty-case fallback and
the tail window (`generateChapterWindows` loop body). -/
def chapterWindowsOf (c : Chapter) : List CandWindow :=
  let span := max 0 (c.endSec - c.startSec)
  let step := max 40 ((⌊span * 0.12⌋ : ℤ) : ℚ)
  let ws := chapterLoop c step c.startSec ((⌈span⌉ : ℤ).toNat + 2)
  if ws.isEmpty then
    [⟨c.startSec, min c.endSec (c.startSec + min 82 (if span = 0 then 82 else span)),
      c.title⟩]
  else
    let last := ws.getLastD ⟨0, 0, ""⟩
    if last.endSec < c.endSec - 8 then
      let tailStart := max c.startSec (c.endSec - 82)
      if last.start ≠ tailStart then ws ++ [⟨tailStart, c.endSec, c.title⟩] else ws
    else ws

/-- `generateChapterWindows(chapters, introIdx)`. -/
def generateChapterWindows (chapters : List Chapter) (introIdx : Option Nat) :
    List CandWindow :=
  ((chapters.enum).filter (fun p => !(introIdx = some p.1))).flatMap
    (fun p => chapterWindowsOf p.2)

/-- The `for (start = 0; start < coverageEnd; start += stride)` loop of
`generateFullCoverageWindows`, fuel-driven. -/
def coverageLoop (coverageEnd stride windowLength : ℚ) : ℚ → Nat → List CandWindow
  | _, 0 => []
  | start, fuel + 1 =>
      if start < coverageEnd then
        ⟨start, min coverageEnd (start + windowLength), "Full Video"⟩ ::
          coverageLoop coverageEnd stride windowLength (start + stride) fuel
      else []

/-- `generateFullCoverageWindows(allWords, videoDuration)`. -/
def generateFullCoverageWindows (allWords : List TranscriptWord)
    (videoDuration : ℚ) : List CandWindow :=
  let lastWordEnd := if allWords.isEmpty then 0 else (allWords.getLastD dummyWord).endSec
  let coverageEnd := max videoDuration lastWordEnd
  if coverageEnd ≤ 0 then []
  else
    let stride : ℚ := if coverageEnd > 1200 then 75 else 55
    let windowLength : ℚ := if coverageEnd > 900 then 95 else 82
    let windows := coverageLoop coverageEnd stride windowLength 0 ((⌈coverageEnd⌉ : ℤ).toNat + 2)
    if windows.isEmpty then [⟨0, coverageEnd, "Full Video"⟩]
    else
      let last := windows.getLastD ⟨0, 0, ""⟩
      if last.endSec < coverageEnd - 5 then
        let tailStart := max 0 (coverageEnd - windowLength)
        if last.start ≠ tailStart then
          windows ++ [⟨tailStart, coverageEnd, "Full Video"⟩]
        else windows.dropLast ++ [⟨tailStart, coverageEnd, "Full Video"⟩]
      else windows

/-- The intro-keyword table of `findIntroChapterIndex`. -/
def introKeywords : List (String × List String) :=
  [("en", ["intro", "introduction", "opening", "welcome"]),
   ("es", ["intro", "introduccion", "introducción", "apertura", "inicio"]),
   ("pt", ["intro", "introducao", "introdução", "apresentação", "abertura"]),
   ("fr", ["intro", "introduction", "ouverture"]),
   ("de", ["intro", "einführung", "einleitung"])]

/-- `findIntroChapterIndex(chapters, detectedLanguage)`. -/
def findIntroChapterIndex (chapters : List Chapter) (detectedLanguage : Option String) :
    Option Nat :=
  match chapters with
  | [] => none
  | c :: _ =>
      let keywordsToCheck :=
        match detectedLanguage.bind
          (fun l => (introKeywords.find? (fun (p : String × List String) => p.1 = l)).map (·.2)) with
        | some ks => ks
        | none => (introKeywords.map (fun (p : String × List String) => p.2)).flatten
      let firstTitle := JsStr.lower c.title
      if keywordsToCheck.any (fun kw => JsStr.includes firstTitle kw) then some 0 else none

/-- `textSimilarity(a, b)`: Jaccard similarity of the lowercased
whitespace-token sets. -/
def textSimilarity (a b : String) : ℚ :=
  let wordsA := (JsStr.jsSplitWs (JsStr.lower a)).eraseDups
  let wordsB := (JsStr.jsSplitWs (JsStr.lower b)).eraseDups
  let intersection := (wordsA.filter (fun w => wordsB.contains w)).length
  let union := wordsA.length + wordsB.length - intersection
  if union = 0 then 0 else (intersection : ℚ) / (union : ℚ)

/-- The quality-gate predicate of `applyQualityGuards`, clause by clause. -/
def passesQualityGuards (seg : EnhancedSegment) : Bool :=
  !decide ((seg.words.filter (fun w => w.start - seg.startSec < 3)).length < 3) &&
  !decide (seg.features.safetyScore < 0.5) &&
  !decide (seg.features.clarityScore < 0.3) &&
  !decide (seg.features.coherenceScore < 0.45) &&
  !decide (seg.features.closureScore < 0.4)

/-- `applyQualityGuards(segments)`. -/
def applyQualityGuards (segments : List EnhancedSegment) : List EnhancedSegment :=
  segments.filter passesQualityGuards

/-- The greedy selection loop of `applyDiversityFilter` (`selected.push` appends). -/
def diversityGo (threshold : ℚ) (selected : List EnhancedSegment) :
    List EnhancedSegment → List EnhancedSegment
  | [] => selected
  | x :: xs =>
      if selected.any (fun e => decide (textSimilarity x.text e.text > threshold)) then
        diversityGo threshold selected xs
      else diversityGo threshold (selected ++ [x]) xs

/-- `applyDiversityFilter(segments, threshold)`. -/
def applyDiversityFilter (segments : List EnhancedSegment) (threshold : ℚ) :
    List EnhancedSegment :=
  if segments.isEmpty then []
  else
    match jsSortBy (fun a b => decide (b.score < a.score)) segments with
    | [] => []
    | s0 :: rest => diversityGo threshold [s0] rest

/-- `hasOverlap(seg1, seg2)`. -/
def hasOverlap (seg1 seg2 : EnhancedSegment) : Bool :=
  !(decide (seg1.endSec ≤ seg2.startSec) || decide (seg2.endSec ≤ seg1.startSec))

/-- The greedy selection loop of `removeOverlaps`. -/
def removeOverlapsGo (selected : List EnhancedSegment) :
    List EnhancedSegment → List EnhancedSegment
  | [] => selected
  | x :: xs =>
      if selected.any (fun e => hasOverlap x e) then removeOverlapsGo selected xs
      else removeOverlapsGo (selected ++ [x]) xs

/-- `removeOverlaps(segments)`: greedy highest-score-first selection, then a
chronological re-sort. -/
def removeOverlaps (segments : List EnhancedSegment) : List EnhancedSegment :=
  if segments.isEmpty then []
  else
    jsSortBy (fun a b => decide (a.startSec < b.startSec))
      (removeOverlapsGo [] (jsSortBy (fun a b => decide (b.score < a.score)) segments))

/-- Pause boundaries of a window's word list: index 0, each index `i+1` whose
preceding inter-word gap lies in `[0.35, 1.2]`, and the word count. -/
def pauseBoundariesOf (windowWords : List TranscriptWord) : List Nat :=
  0 :: ((List.range (windowWords.length - 1)).filterMap (fun i =>
    let gap := (windowWords.getD (i + 1) dummyWord).start -
      (windowWords.getD i dummyWord).endSec
    if 0.35 ≤ gap && gap ≤ 1.2 then some (i + 1) else none)) ++
    [windowWords.length]

/-- All ordered boundary pairs `(bs[i], bs[j])`, `i < j`, in the nested-loop order
of the source. -/
def boundaryPairs : List Nat → List (Nat × Nat)
  | [] => []
  | b :: rest => rest.map (fun c => (b, c)) ++ boundaryPairs rest

/-- The body of the candidate enumeration loop for one boundary pair `(bi, bj)`:
the `continue` statements are modelled by `none`. -/
def buildCandidate (windowWords : List TranscriptWord) (sceneChanges : List SceneChange)
    (hotspots : List ℚ) (chapterTitle : String) (bi bj : Nat) :
    Option EnhancedSegment :=
  let segWords := (windowWords.drop bi).take (bj - bi)
  if segWords.length < 8 then none
  else
    let startSec := (segWords.headD dummyWord).start
    let endSec := (segWords.getLastD dummyWord).endSec
    let duration := endSec - startSec
    if duration < 20 || duration > 82 then none
    else
      let initialFeatures :=
        calculateSegmentFeatures segWords startSec endSec sceneChanges hotspots
      let initialScore := scoreSegment initialFeatures
      if initialScore < 0.5 then none
      else
        let tc := chooseDuration initialFeatures duration
        let adj := adjustSegmentToNarrativeBoundary segWords startSec endSec tc.1
        let adjustedWords := adj.1
        let adjustedEndSec := adj.2
        if adjustedWords.length < 8 then none
        else
          let finalFeatures :=
            calculateSegmentFeatures adjustedWords startSec adjustedEndSec sceneChanges hotspots
          let finalScore := scoreSegment finalFeatures
          if finalScore < 0.52 then none
          else
            let text := JsStr.joinSpace (adjustedWords.map (·.word))
            let hook :=
              JsStr.trim (JsStr.joinSpace ((adjustedWords.filter
                (fun w => w.start - startSec < 3)).map (·.word)))
            some
              { startSec := startSec
                endSec := adjustedEndSec
                durationSec := adjustedEndSec - startSec
                words := adjustedWords
                text := text
                hook := if hook = "" then String.mk (text.data.take 50) else hook
                score := finalScore
                features := finalFeatures
                rationaleShort := generateRationale finalFeatures finalScore
                durationChoice := tc.2
                chapterTitle := chapterTitle }

/-- The candidates contributed by one window: skip windows with fewer than 10
words, then run the boundary-pair enumeration. -/
def windowCandidates (allWords : List TranscriptWord) (sceneChanges : List SceneChange)
    (hotspots : List ℚ) (w : CandWindow) : List EnhancedSegment :=
  let windowWords := allWords.filter (fun x => x.start ≥ w.start && x.start < w.endSec)
  if windowWords.length < 10 then []
  else
    (boundaryPairs (pauseBoundariesOf windowWords)).filterMap
      (fun p => buildCandidate windowWords sceneChanges hotspots w.chapterTitle p.1 p.2)

/-- Drop a window equal (same `start` and `end`) to its predecessor in the array,
as the post-sort dedup filter does. -/
def dedupAdjacentGo (prev : CandWindow) : List CandWindow → List CandWindow
  | [] => []
  | y :: ys =>
      if y.start = prev.start && y.endSec = prev.endSec then dedupAdjacentGo y ys
      else y :: dedupAdjacentGo y ys

/-- The `filter((w, idx, arr) => idx === 0 || ...)` consecutive-duplicate removal. -/
def dedupAdjacent : List CandWindow → List CandWindow
  | [] => []
  | x :: xs => x :: dedupAdjacentGo x xs

/-- The sorted, deduplicated window list used by `detectEnhancedSegments`,
including the chapter-coverage fallback merge. -/
def windowsOf (transcript : List TranscriptSegment) (chapters : List Chapter)
    (videoDuration : ℚ) : List CandWindow :=
  let allWords := (transcript.map (·.words)).flatten
  let detectedLanguage : Option String := none
  let introIdx := findIntroChapterIndex chapters detectedLanguage
  let windows0 :=
    if chapters.length > 0 then generateChapterWindows chapters introIdx
    else generateFullCoverageWindows allWords videoDuration
  let windows1 :=
    if chapters.length > 0 then
      let fallbackWindows := generateFullCoverageWindows allWords videoDuration
      let maxExistingEnd := windows0.foldl (fun m w => max m w.endSec) 0
      let coverageEnd : ℚ :=
        match fallbackWindows.getLast? with
        | some l => l.endSec
        | none => maxExistingEnd
      if coverageEnd > maxExistingEnd + 5 then
        windows0 ++ fallbackWindows.filter (fun w => w.start ≥ maxExistingEnd - 60)
      else windows0
    else windows0
  dedupAdjacent (jsSortBy (fun a b => decide (a.start < b.start)) windows1)

/-- The full candidate list accumulated by the enumeration loops of
`detectEnhancedSegments`. -/
def candidatesOf (transcript : List TranscriptSegment) (sceneChanges : List SceneChange)
    (chapters : List Chapter) (videoDuration : ℚ) (commentHotspots : List ℚ) :
    List EnhancedSegment :=
  let allWords := (transcript.map (·.words)).flatten
  (windowsOf transcript chapters videoDuration).flatMap
    (windowCandidates allWords sceneChanges commentHotspots)

/-- `detectEnhancedSegments(transcript, sceneChanges, chapters, videoDuration,
commentHotspots)`: the engine entry point. The source reads
`transcript[0]?.language`, a property absent from `TranscriptSegment`, so the
detected language is always `undefined` (`none` here, applied inside `windowsOf`). -/
def detectEnhancedSegments (transcript : List TranscriptSegment)
    (sceneChanges : List SceneChange) (chapters : List Chapter)
    (videoDuration : ℚ) (commentHotspots : List ℚ) : List EnhancedSegment :=
  let allWords := (transcript.map (·.words)).flatten
  if allWords.isEmpty then []
  else
    let candidates := candidatesOf transcript sceneChanges chapters videoDuration commentHotspots
    let qualityFiltered := applyQualityGuards candidates
    let diversified := applyDiversityFilter qualityFiltered 0.7
    let nonOverlapping := removeOverlaps diversified
    nonOverlapping.take 12

end SegV2

namespace Framing

/-- The framing service's `TranscriptWord` (`{ t, end, text, speaker? }`). `end`
is a Lean keyword, so the field is named `endSec`. -/
structure FTranscriptWord where
  t : ℚ
  endSec : ℚ
  text : String
  speaker : Option String
deriving DecidableEq, Repr

/-- `SpeakerWindow`. -/
structure SpeakerWindow where
  start : ℚ
  endSec : ℚ
  speakerId : String
deriving DecidableEq, Repr

/-- `FaceBox`: one sampled detection; `landmarks` are the optional 68 facial
points, each an `(x, y)` pair. -/
structure FaceBox where
  t : ℚ
  x : ℚ
  y : ℚ
  w : ℚ
  h : ℚ
  landmarks : Option (List (ℚ × ℚ))
deriving DecidableEq, Repr

/-- `BodyBox`. -/
structure BodyBox where
  x : ℚ
  y : ℚ
  w : ℚ
  h : ℚ
  cx : ℚ
  cy : ℚ
deriving DecidableEq, Repr

/-- `FaceTrack`. -/
structure FaceTrack where
  id : String
  boxes : List FaceBox
deriving DecidableEq, Repr

/-- `CropKF`: a crop keyframe. The source rounds `x` and `y` to integers at every
stage, so they are carried as `ℤ`; `w`/`h` are the fixed target box. -/
structure CropKF where
  t : ℚ
  x : ℤ
  y : ℤ
  w : ℤ
  h : ℤ
deriving DecidableEq, Repr

/-- `Constraints`. -/
structure Constraints where
  margin : ℚ
  maxPan : ℚ
  easeMs : ℚ
  centerBiasY : ℚ
  safeTop : ℚ
  safeBottom : ℚ
deriving DecidableEq, Repr

/-- `FRAMING_MIN_SPEAKER_HOLD_MS` default (600 ms), in seconds. -/
def minHoldDefault : ℚ := 600 / 1000

/-- `getSampleStepSeconds()` with `FRAMING_SAMPLE_FPS` unset: `1 / 3`. -/
def getSampleStepSeconds : ℚ := 1 / 3

/-- `getTorsoMultiplier()` with `FRAMING_TORSO_MULTIPLIER` unset: `2.7`. -/
def getTorsoMultiplier : ℚ := 2.7

/-- `clamp(value, min, max)`. -/
def clamp (value lo hi : ℚ) : ℚ :=
  if value < lo then lo else if value > hi then hi else value

/-- The word-accumulation loop of `buildSpeakerTimeline`, carrying the open
window `cur`. -/
def speakerTimelineGo (segStart segEnd : ℚ) (cur : Option SpeakerWindow) :
    List FTranscriptWord → List SpeakerWindow
  | [] =>
      match cur with
      | some c => if c.endSec - c.start > 0 then [c] else []
      | none => []
  | w :: ws =>
      if w.t < segStart then speakerTimelineGo segStart segEnd cur ws
      else if w.t > segEnd then
        match cur with
        | some c => if c.endSec - c.start > 0 then [c] else []
        | none => []
      else
        let sp := w.speaker.getD "spk"
        match cur with
        | none =>
            speakerTimelineGo segStart segEnd
              (some ⟨max w.t segStart, min w.endSec segEnd, sp⟩) ws
        | some c =>
            if c.speakerId = sp then
              speakerTimelineGo segStart segEnd (some ⟨c.start, min w.endSec segEnd, sp⟩) ws
            else
              (if c.endSec - c.start > 0 then [c] else []) ++
                speakerTimelineGo segStart segEnd
                  (some ⟨max w.t segStart, min w.endSec segEnd, sp⟩) ws

/-- `mergeShortWindows(w)`: merge adjacent same-speaker windows separated by less
than the minimum hold, then drop windows shorter than the minimum hold. -/
def mergeShortWindowsGo (cur : Option SpeakerWindow) :
    List SpeakerWindow → List SpeakerWindow
  | [] => match cur with | some c => [c] | none => []
  | nxt :: rest =>
      match cur with
      | none => mergeShortWindowsGo (some nxt) rest
      | some c =>
          if nxt.start - c.endSec < minHoldDefault && nxt.speakerId = c.speakerId then
            mergeShortWindowsGo (some ⟨c.start, nxt.endSec, c.speakerId⟩) rest
          else c :: mergeShortWindowsGo (some nxt) rest

/-- `mergeShortWindows(w)`. -/
def mergeShortWindows (w : List SpeakerWindow) : List SpeakerWindow :=
  match w with
  | [] => []
  | c :: rest =>
      (mergeShortWindowsGo (some c) rest).filter
        (fun s => decide (s.endSec - s.start ≥ minHoldDefault))

/-- `buildSpeakerTimeline(words, segStart, segEnd)`. -/
def buildSpeakerTimeline (words : List FTranscriptWord) (segStart segEnd : ℚ) :
    List SpeakerWindow :=
  mergeShortWindows (speakerTimelineGo segStart segEnd none words)

/-- The per-box accumulation of `computeTrackCoverage`: each box covers up to the
next box's time, the last one up to `avgDelta` past itself. -/
def covSum : List FaceBox → ℚ → ℚ → ℚ → ℚ
  | [], _, _, _ => 0
  | [b], avgDelta, start, endSec =>
      let segStart := max start b.t
      let segEnd := min endSec (b.t + avgDelta)
      if segEnd > segStart then segEnd - segStart else 0
  | b :: b2 :: rest, avgDelta, start, endSec =>
      let segStart := max start b.t
      let segEnd := min endSec b2.t
      (if segEnd > segStart then segEnd - segStart else 0) +
        covSum (b2 :: rest) avgDelta start endSec

/-- `computeTrackCoverage(track, start, end)`: the temporal presence of a track
inside a window, with the derived average sampling step used for the trailing
extrapolation (`isFinite` is vacuous over `ℚ`). -/
def computeTrackCoverage (track : FaceTrack) (start endSec : ℚ) : ℚ :=
  if track.boxes.isEmpty || endSec ≤ start then 0
  else
    let fallbackStep := getSampleStepSeconds
    let avgDelta :=
      if track.boxes.length > 1 then
        let totalSpan :=
          (track.boxes.getLastD ⟨0, 0, 0, 0, 0, none⟩).t -
            (track.boxes.headD ⟨0, 0, 0, 0, 0, none⟩).t
        if totalSpan > 0 then totalSpan / ((track.boxes.length : ℚ) - 1)
        else fallbackStep
      else fallbackStep
    covSum track.boxes avgDelta start endSec

/-- One speaker-to-track mapping window (`{ start, end, trackId }`). -/
structure MapWin where
  start : ℚ
  endSec : ℚ
  trackId : String
deriving DecidableEq, Repr

/-- Comparator order of the per-speaker candidate sort and of the fallback sort:
coverage descending, ties by id (`localeCompare` modelled as the ASCII string
order used by the `track_N` ids). -/
def coverageLt (a b : String × ℚ) : Bool :=
  if a.2 ≠ b.2 then decide (b.2 < a.2) else decide (a.1 < b.1)

/-- Sum of the positive per-window coverages of `track` over `windows`
(the `totals` accumulation of `mapSpeakersToTracks`; the coverage cache is pure
memoization and is modelled by direct recomputation). -/
def totalsCoverage (track : FaceTrack) (windows : List SpeakerWindow) : ℚ :=
  (windows.map (fun sw =>
    let coverage := computeTrackCoverage track sw.start sw.endSec
    if coverage > 0 then coverage else 0)).sum

/-- The greedy assignment fold of `mapSpeakersToTracks`: highest-coverage speaker
first, one track per speaker. Returns the assignment association list and the
used-track set. -/
def assignFold (tracks : List FaceTrack) (covOf : String → String → ℚ) :
    List String → List (String × String) × List String → List (String × String) × List String
  | [], acc => acc
  | speakerId :: rest, acc =>
      let candidates :=
        jsSortBy coverageLt (tracks.map (fun track => (track.id, covOf speakerId track.id)))
      let chosen :=
        match candidates.find? (fun (c : String × ℚ) => !acc.2.contains c.1 && decide (c.2 > 0)) with
        | some c => some c
        | none =>
            match candidates.find? (fun (c : String × ℚ) => !acc.2.contains c.1 && decide (c.2 ≥ 0)) with
            | some c => some c
            | none => candidates.head?
      match chosen with
      | some c =>
          if c.2 > 0 then
            assignFold tracks covOf rest (acc.1 ++ [(speakerId, c.1)], acc.2 ++ [c.1])
          else assignFold tracks covOf rest acc
      | none => assignFold tracks covOf rest acc

/-- `mapSpeakersToTracks(s, tracks)`: greedy highest-coverage-first speaker/track
matching, then a per-window resolution with a best-coverage fallback. `track_N`
ids are unique, so the first-match lookup models the JS `Map`. -/
def mapSpeakersToTracks (s : List SpeakerWindow) (tracks : List FaceTrack) :
    List MapWin :=
  if s.isEmpty || tracks.isEmpty then []
  else
    let validWindows := s.filter (fun sw => decide (sw.endSec > sw.start))
    let speakersInOrder := (validWindows.map (·.speakerId)).eraseDups
    let windowsOfSpeaker := fun spk => validWindows.filter (fun sw => sw.speakerId = spk)
    let speakerDuration := fun spk =>
      ((windowsOfSpeaker spk).map (fun sw => sw.endSec - sw.start)).sum
    let covOf := fun spk tid =>
      match tracks.find? (fun t => t.id = tid) with
      | some track => totalsCoverage track (windowsOfSpeaker spk)
      | none => 0
    let speakerOrder :=
      jsSortBy (fun a b =>
        if speakerDuration b ≠ speakerDuration a then
          decide (speakerDuration b < speakerDuration a)
        else decide (a < b)) speakersInOrder
    let assignment := (assignFold tracks covOf speakerOrder ([], [])).1
    validWindows.filterMap (fun sw =>
      let assigned := (assignment.find? (fun p => p.1 = sw.speakerId)).map (·.2)
      let liveAssigned :=
        assigned.bind (fun tid =>
          match tracks.find? (fun t => t.id = tid) with
          | none => none
          | some track =>
              if computeTrackCoverage track sw.start sw.endSec > 0 then some tid
              else none)
      match liveAssigned with
      | some tid => some ⟨sw.start, sw.endSec, tid⟩
      | none =>
          let best :=
            (jsSortBy coverageLt
              ((tracks.map (fun track =>
                (track.id, computeTrackCoverage track sw.start sw.endSec))).filter
                (fun item => decide (item.2 > 0)))).head?
          best.map (fun b => ⟨sw.start, sw.endSec, b.1⟩))

/-- `estimateBodyBox(faceBox, baseW, baseH)`: landmark-derived body estimate.
The `isFinite` guards are vacuous over `ℚ`. -/
def estimateBodyBox (faceBox : FaceBox) (baseW baseH : ℚ) : Option BodyBox :=
  match faceBox.landmarks with
  | none => none
  | some lm =>
      if lm.length < 68 then none
      else
        let chinY := (lm.getD 8 (0, 0)).2
        let eyebrowTopY := min (lm.getD 19 (0, 0)).2 (lm.getD 24 (0, 0)).2
        let headHeight := chinY - eyebrowTopY
        if headHeight ≤ 0 then none
        else
          let jawLeft := lm.getD 0 (0, 0)
          let jawRight := lm.getD 16 (0, 0)
          let shoulderWidth := |jawRight.1 - jawLeft.1| * 1.8
          if shoulderWidth ≤ 0 then none
          else
            let torsoHeight := headHeight * getTorsoMultiplier
            let estimatedTopY := eyebrowTopY - headHeight * 0.2
            let estimatedBottomY := min (chinY + torsoHeight) baseH
            let bodyHeight := estimatedBottomY - estimatedTopY
            let centerX := (jawLeft.1 + jawRight.1) / 2
            let centerY := estimatedTopY + bodyHeight * 0.4
            let bodyLeft := max 0 (centerX - shoulderWidth / 2)
            let bodyRight := min baseW (centerX + shoulderWidth / 2)
            some ⟨bodyLeft, estimatedTopY, bodyRight - bodyLeft, bodyHeight, centerX, centerY⟩

/-- `findBoxNearTime(boxes, time, tolerance)`: the box within tolerance whose
time is (strictly first-wins) closest to `time`. -/
def findBoxNearTime (boxes : List FaceBox) (time tolerance : ℚ) : Option FaceBox :=
  (boxes.foldl (fun best box =>
    let delta := |box.t - time|
    match best with
    | none => if delta ≤ tolerance then some (box, delta) else best
    | some bd => if delta ≤ tolerance && delta < bd.2 then some (box, delta) else best)
    none).map (·.1)

/-- `enforceGroupBounds(desiredX, targetW, baseW, bounds)`. -/
def enforceGroupBounds (desiredX : ℚ) (targetW baseW : ℚ)
    (bounds : Option (ℚ × ℚ)) : ℚ :=
  let minCropX : ℚ := 0
  let maxCropX := max 0 (baseW - targetW)
  let normalize := fun (value : ℚ) =>
    let clamped := clamp value minCropX maxCropX
    if desiredX.den = 1 then ((jsRound clamped : ℤ) : ℚ) else clamped
  match bounds with
  | none => normalize desiredX
  | some b =>
      let span := b.2 - b.1
      if span ≤ 0 then normalize desiredX
      else if span ≥ targetW then normalize (b.1 + span / 2 - targetW / 2)
      else
        let minAllowed := clamp (b.2 - targetW) minCropX maxCropX
        let maxAllowed := clamp b.1 minCropX maxCropX
        if minAllowed ≤ maxAllowed then
          if desiredX < minAllowed then normalize minAllowed
          else if desiredX > maxAllowed then normalize maxAllowed
          else normalize desiredX
        else normalize (b.1 + span / 2 - targetW / 2)

/-- `computeGroupBounds(tracks, time, baseW, baseH)`: horizontal extent of all
subjects visible near `time`; `null` unless at least two subjects are found. -/
def computeGroupBounds (tracks : List FaceTrack) (time : ℚ) (baseW baseH : ℚ) :
    Option (ℚ × ℚ) :=
  let tolerance := max 0.1 getSampleStepSeconds
  let acc := tracks.foldl (fun (st : Option (ℚ × ℚ) × Nat) track =>
    match findBoxNearTime track.boxes time tolerance with
    | none => st
    | some candidate =>
        let body := estimateBodyBox candidate baseW baseH
        let left := match body with | some bb => bb.x | none => candidate.x
        let right := match body with | some bb => bb.x + bb.w | none => candidate.x + candidate.w
        match st.1 with
        | none => (some (left, right), st.2 + 1)
        | some mm => (some (min mm.1 left, max mm.2 right), st.2 + 1)) (none, 0)
  match acc.1 with
  | none => none
  | some mm =>
      if acc.2 ≤ 1 then none
      else
        let minX := max 0 mm.1
        let maxX := min baseW mm.2
        if maxX ≤ minX then none else some (minX, maxX)

/-- The crop-center rule of `buildKeyframes`: the body-box estimate when 68
landmarks are available, else the raw face-box center, with the configured
vertical bias. -/
def subjectCenter (b : FaceBox) (baseW baseH : ℚ) (c : Constraints)
    (targetH : ℚ) : ℚ × ℚ :=
  match estimateBodyBox b baseW baseH with
  | some bodyBox => (bodyBox.cx, bodyBox.cy - targetH * c.centerBiasY)
  | none => (b.x + b.w / 2, b.y + b.h * (0.5 - c.centerBiasY))

/-- The fixed crop width `floor(baseH * 9/16)` used by `buildKeyframes`. -/
def targetWOf (baseH : ℤ) : ℤ := ⌊(baseH : ℚ) * 9 / 16⌋

/-- The rounded pre-clamp x position of the `buildKeyframes` box loop for one
box `b` (`x0` in the loop): margin clamping on the real-valued ideal position,
group-bounds enforcement, then rounding. -/
def kfX0 (tracks : List FaceTrack) (baseW baseH : ℤ) (c : Constraints)
    (b : FaceBox) : ℤ :=
  let targetW : ℤ := targetWOf baseH
  let targetH : ℤ := baseH
  let cx := (subjectCenter b (baseW : ℚ) (baseH : ℚ) c (targetH : ℚ)).1
  let marginPx := max 0 c.margin * (targetW : ℚ)
  let minCropX : ℚ := 0
  let maxCropX : ℚ := max 0 ((baseW - targetW : ℤ) : ℚ)
  let idealX0 := cx - (targetW : ℚ) / 2
  let groupBounds := computeGroupBounds tracks b.t (baseW : ℚ) (baseH : ℚ)
  let idealX1 :=
    if marginPx > 0 then
      let marginMin := cx - (targetW : ℚ) + marginPx
      let marginMax := cx - marginPx
      let allowedMin := max minCropX marginMin
      let allowedMax := min maxCropX marginMax
      if allowedMin ≤ allowedMax then
        if idealX0 < allowedMin then allowedMin
        else if idealX0 > allowedMax then allowedMax
        else idealX0
      else if cx < marginPx then minCropX
      else if (baseW : ℚ) - cx < marginPx then maxCropX
      else idealX0
    else idealX0
  jsRound (enforceGroupBounds idealX1 (targetW : ℚ) (baseW : ℚ) groupBounds)

/-- The integer-window margin clamp of the box loop (`x1` from `x0`): clamp the
rounded position into `[ceil(cx - targetW + marginPx), floor(cx - marginPx)]`
intersected with the valid crop range, when that window is non-empty. -/
def intMarginClamp (marginPx cx : ℚ) (targetW baseW x0 : ℤ) : ℤ :=
  if marginPx > 0 then
    let allowedMin : ℤ := max 0 ⌈cx - (targetW : ℚ) + marginPx⌉
    let allowedMax : ℤ := min (max 0 (baseW - targetW)) ⌊cx - marginPx⌋
    if allowedMin ≤ allowedMax then
      if x0 < allowedMin then allowedMin
      else if x0 > allowedMax then allowedMax
      else x0
    else x0
  else x0

/-- The final x position of one keyframe of the box loop: rounded ideal
position (`kfX0`), integer margin clamp, group-bounds enforcement and the final
crop clamps. -/
def kfX (tracks : List FaceTrack) (baseW baseH : ℤ) (c : Constraints)
    (b : FaceBox) : ℤ :=
  let targetW : ℤ := targetWOf baseH
  let targetH : ℤ := baseH
  let cx := (subjectCenter b (baseW : ℚ) (baseH : ℚ) c (targetH : ℚ)).1
  let marginPx := max 0 c.margin * (targetW : ℚ)
  let groupBounds := computeGroupBounds tracks b.t (baseW : ℚ) (baseH : ℚ)
  let x0 := kfX0 tracks baseW baseH c b
  let x1 := intMarginClamp marginPx cx targetW baseW x0
  let x2 := enforceGroupBounds ((x1 : ℤ) : ℚ) (targetW : ℚ) (baseW : ℚ) groupBounds
  max 0 (min (jsRound x2) (max 0 (baseW - targetW)))

/-- The final y position of one keyframe of the box loop: the rounded centered
position clamped into the safe-zone band. -/
def kfY (baseW baseH : ℤ) (c : Constraints) (b : FaceBox) : ℤ :=
  let targetH : ℤ := baseH
  let cy := (subjectCenter b (baseW : ℚ) (baseH : ℚ) c (targetH : ℚ)).2
  let y0 : ℤ := jsRound (cy - (targetH : ℚ) / 2)
  let safeTop : ℤ := jsRound ((targetH : ℚ) * c.safeTop)
  let safeBottom : ℤ := jsRound ((targetH : ℚ) * c.safeBottom)
  max (-safeTop) (min y0 (baseH - targetH + safeBottom))

/-- The body of the `buildKeyframes` box loop for one box `b`: the keyframe at
the box's sample time with the clamped x/y positions and the fixed target box. -/
def kfOfBox (tracks : List FaceTrack) (baseW baseH : ℤ) (c : Constraints)
    (b : FaceBox) : CropKF :=
  ⟨b.t, kfX tracks baseW baseH c b, kfY baseW baseH c b,
    targetWOf baseH, baseH⟩

/-- The box iteration of `buildKeyframes` for one mapping window: `continue`
before the window, `break` past its end. -/
def boxesInWindow (mStart mEnd : ℚ) : List FaceBox → List FaceBox
  | [] => []
  | b :: rest =>
      if b.t < mStart then boxesInWindow mStart mEnd rest
      else if b.t > mEnd then []
      else b :: boxesInWindow mStart mEnd rest

/-- The skip of `dedupeByTime`: keep a keyframe only if it is at least `minDelta`
after the last kept one. -/
def dedupeGo (minDelta : ℚ) (prev : CropKF) : List CropKF → List CropKF
  | [] => []
  | k :: rest =>
      if k.t - prev.t ≥ minDelta then k :: dedupeGo minDelta k rest
      else dedupeGo minDelta prev rest

/-- `dedupeByTime(kf, minDelta)`. -/
def dedupeByTime (kf : List CropKF) (minDelta : ℚ) : List CropKF :=
  match kf with
  | [] => []
  | k :: rest => k :: dedupeGo minDelta k rest

/-- `buildKeyframes(mapping, tracks, baseW, baseH, c)`. -/
def buildKeyframes (mapping : List MapWin) (tracks : List FaceTrack)
    (baseW baseH : ℤ) (c : Constraints) : List CropKF :=
  dedupeByTime
    (mapping.flatMap (fun m =>
      match tracks.find? (fun t => t.id = m.trackId) with
      | none => []
      | some tr => (boxesInWindow m.start m.endSec tr.boxes).map (kfOfBox tracks baseW baseH c)))
    0.1

/-- The symmetric moving-average stage of `smoothAndConstrain` (window `win = 3`
keyframes on each side). -/
def smoothPath (kf : List CropKF) : List CropKF :=
  (List.range kf.length).map (fun i =>
    let lo := i - 3
    let hi := min (kf.length - 1) (i + 3)
    let win := (kf.drop lo).take (hi + 1 - lo)
    let n := win.length
    let ki := kf.getD i ⟨0, 0, 0, 0, 0⟩
    ⟨ki.t, jsRound (((win.map (·.x)).sum : ℤ) / (n : ℚ)),
      jsRound (((win.map (·.y)).sum : ℤ) / (n : ℚ)), ki.w, ki.h⟩)

/-- `stepLimit(a, b, m)`: step from `a` toward `b` by at most `m`. -/
def stepLimit (a b m : ℤ) : ℤ :=
  if |b - a| ≤ m then b
  else if b > a then a + m
  else a - m

/-- One pan-rate-limiting step: cap the move from the previous output keyframe
toward the smoothed target by `maxPan * dt`. -/
def mkStep (maxPan : ℚ) (prev smi : CropKF) : CropKF :=
  let dt := max 0.001 (smi.t - prev.t)
  let maxStep := jsRound (maxPan * dt)
  ⟨smi.t, stepLimit prev.x smi.x maxStep, stepLimit prev.y smi.y maxStep, smi.w, smi.h⟩

/-- The pan-rate-limiting loop over the smoothed keyframes. -/
def rateLimitGo (maxPan : ℚ) (prev : CropKF) : List CropKF → List CropKF
  | [] => []
  | smi :: rest =>
      let nk := mkStep maxPan prev smi
      nk :: rateLimitGo maxPan nk rest

/-- The pan-rate-limiting stage of `smoothAndConstrain`: the first smoothed
keyframe is taken as-is, later ones are stepped toward with the capped delta. -/
def rateLimitPath (maxPan : ℚ) : List CropKF → List CropKF
  | [] => []
  | s0 :: rest => s0 :: rateLimitGo maxPan s0 rest

/-- The edge-easing loop of `easeSpeakerEdges`. -/
def easeGo (segStart segEnd easeS : ℚ) (p : CropKF) : List CropKF → List CropKF
  | [] => []
  | k :: rest =>
      let fromStart := min 1 (max 0 ((k.t - segStart) / easeS))
      let fromEnd := min 1 (max 0 ((segEnd - k.t) / easeS))
      let alpha := min fromStart fromEnd
      let nk : CropKF :=
        ⟨k.t, jsRound ((p.x : ℚ) + ((k.x : ℚ) - (p.x : ℚ)) * alpha),
          jsRound ((p.y : ℚ) + ((k.y : ℚ) - (p.y : ℚ)) * alpha), k.w, k.h⟩
      nk :: easeGo segStart segEnd easeS nk rest

/-- `easeSpeakerEdges(kf, segStart, segEnd, easeS)`. -/
def easeSpeakerEdges (kf : List CropKF) (segStart segEnd easeS : ℚ) : List CropKF :=
  if kf.length < 2 then kf
  else
    match kf with
    | [] => []
    | k0 :: rest => k0 :: easeGo segStart segEnd easeS k0 rest

/-- `smoothAndConstrain(kf, baseW, baseH, segStart, segEnd, c)`: moving-average
smoothing, pan-rate limiting, then edge easing. The `baseW`/`baseH` parameters
are unused by the source body and kept for signature fidelity. -/
def smoothAndConstrain (kf : List CropKF) (baseW baseH : ℤ) (segStart segEnd : ℚ)
    (c : Constraints) : List CropKF :=
  let _ := baseW
  let _ := baseH
  if kf.isEmpty then kf
  else
    easeSpeakerEdges (rateLimitPath c.maxPan (smoothPath kf)) segStart segEnd
      (c.easeMs / 1000)

/-- `computeCropMap(input, c)` with the face-detection stage abstracted: the
`detectAndTrackFaces` call performs frame extraction and neural inference (I/O),
so its result is taken as the `tracks` input, and the remaining pipeline is
modelled exactly: empty speaker timeline, empty track list, empty mapping or
empty smoothed path all yield `null`. -/
def computeCropMapPure (transcript : List FTranscriptWord) (tracks : List FaceTrack)
    (baseW baseH : ℤ) (segStart segEnd : ℚ) (c : Constraints) :
    Option (List CropKF) :=
  let speaker := buildSpeakerTimeline transcript segStart segEnd
  if speaker.isEmpty then none
  else if tracks.isEmpty then none
  else
    let mapping := mapSpeakersToTracks speaker tracks
    if mapping.isEmpty then none
    else
      let raw := buildKeyframes mapping tracks baseW baseH c
      let smoothed := smoothAndConstrain raw baseW baseH segStart segEnd c
      if smoothed.isEmpty then none
      else some smoothed

end Framing

namespace SegV2

/-- The symmetric non-intersection relation of the no-overlap invariant. -/
def noOverlapRel (a b : EnhancedSegment) : Prop :=
  a.endSec ≤ b.startSec ∨ b.endSec ≤ a.startSec

/-- The post-filter survivor list of `detectEnhancedSegments`: quality gate,
diversity filter and overlap removal (which ends with the chronological re-sort),
before the final cap of 12. -/
def survivorsOf (transcript : List TranscriptSegment) (sceneChanges : List SceneChange)
    (chapters : List Chapter) (videoDuration : ℚ) (commentHotspots : List ℚ) :
    List EnhancedSegment :=
  removeOverlaps (applyDiversityFilter
    (applyQualityGuards (candidatesOf transcript sceneChanges chapters videoDuration commentHotspots))
    0.7)

/-- Initial (pre-refinement) score of the boundary pair `(bi, bj)` of a window's
word list: the score the enumeration computes before duration adjustment. -/
def initialScoreOf (windowWords : List TranscriptWord) (sceneChanges : List SceneChange)
    (hotspots : List ℚ) (bi bj : Nat) : ℚ :=
  let segWords := (windowWords.drop bi).take (bj - bi)
  scoreSegment (calculateSegmentFeatures segWords (segWords.headD dummyWord).start
    (segWords.getLastD dummyWord).endSec sceneChanges hotspots)

end SegV2

namespace Framing

/-- Placeholder keyframe for total list indexing. -/
def zeroKF : CropKF := ⟨0, 0, 0, 0, 0⟩

/-- The configured horizontal margin in pixels, `max(0, c.margin) * targetW`. -/
def marginPxOf (baseH : ℤ) (c : Constraints) : ℚ :=
  max 0 c.margin * ((targetWOf baseH : ℤ) : ℚ)

/-- The horizontal subject center used by `buildKeyframes` for a box. -/
def centerXOf (baseW baseH : ℤ) (c : Constraints) (b : FaceBox) : ℚ :=
  (subjectCenter b (baseW : ℚ) (baseH : ℚ) c ((baseH : ℤ) : ℚ)).1

/-- Feasibility of the integer margin window for a box: the rounded window
`[⌈cx - targetW + marginPx⌉, ⌊cx - marginPx⌋] ∩ [0, maxCropX]` is non-empty
(the subject is not pinned against a source edge and the crop is wide enough for
both margins). -/
def marginFeasible (baseW baseH : ℤ) (c : Constraints) (b : FaceBox) : Prop :=
  max 0 ⌈centerXOf baseW baseH c b - ((targetWOf baseH : ℤ) : ℚ) + marginPxOf baseH c⌉ ≤
    min (max 0 (baseW - targetWOf baseH)) ⌊centerXOf baseW baseH c b - marginPxOf baseH c⌋

instance (baseW baseH : ℤ) (c : Constraints) (b : FaceBox) :
    Decidable (marginFeasible baseW baseH c b) :=
  inferInstanceAs (Decidable (_ ≤ _))

/-- The claimed bounding box of a crop keyframe, with the safe-zone offsets made
explicit: `w` and `h` are the fixed target box, `0 ≤ x ≤ baseW - w`, and `y`
ranges over `[-(safe-top pixels), baseH - h + (safe-bottom pixels)]`. -/
def inCropBounds (baseW baseH : ℤ) (c : Constraints) (kf : CropKF) : Prop :=
  kf.w = targetWOf baseH ∧ kf.h = baseH ∧
  0 ≤ kf.x ∧ kf.x ≤ baseW - kf.w ∧
  -(jsRound ((baseH : ℚ) * c.safeTop)) ≤ kf.y ∧
  kf.y ≤ baseH - kf.h + jsRound ((baseH : ℚ) * c.safeBottom)

end Framing

/-- A two-keyframe smoothed path for exercising the pan-rate limiter. -/
def rlSm : List Framing.CropKF := [⟨0, 0, 0, 607, 1080⟩, ⟨1, 300, 0, 607, 1080⟩]

set_option maxRecDepth 1000000

/-- A transcript whose single utterance produces exactly one candidate segment:
20 chronologically ordered words spanning 2s–43.1s with a terminal-punctuation
cut at 43.1s; the candidate's target duration is 40s with tier `short30` and its
refined duration is 41.1s. -/
def goldenWords : List SegV2.TranscriptWord :=
  [⟨"Today", 2, 2.4⟩, ⟨"punchy", 2.6, 3⟩, ⟨"brand", 3.2, 3.6⟩, ⟨"growth", 3.8, 4.2⟩,
   ⟨"funnel", 4.4, 4.8⟩, ⟨"pricing", 5, 5.4⟩, ⟨"revenue", 7.2, 7.6⟩, ⟨"margin", 10, 10.5⟩,
   ⟨"upsell", 13, 13.5⟩, ⟨"churn", 16, 16.5⟩, ⟨"retain", 19, 19.5⟩, ⟨"metric", 22, 22.5⟩,
   ⟨"budget", 25, 25.5⟩, ⟨"vendor", 28, 28.5⟩, ⟨"outbound", 31, 31.5⟩, ⟨"inbound", 34, 34.5⟩,
   ⟨"pipeline", 37, 37.5⟩, ⟨"quota", 39, 39.5⟩, ⟨"closing", 41, 41.4⟩, ⟨"strategy.", 42.7, 43.1⟩]

/-- The `goldenWords` transcript as a single utterance of a 50s video. -/
def goldenTranscript : List SegV2.TranscriptSegment := [⟨"golden", 2, 43.1, goldenWords⟩]

/-- Decidable adjacency check used to discharge the `Chain'` gap hypothesis on
concrete inputs: every consecutive word pair starts at most 4s after the
previous word ends. -/
def gapOkW : List SegV2.TranscriptWord → Bool
  | a :: b :: rest => decide (b.start ≤ a.endSec + 4) && gapOkW (b :: rest)
  | _ => true

/-- Placeholder segment for total list indexing in concrete statements. -/
def dummySegment : SegV2.EnhancedSegment :=
  ⟨0, 0, 0, [], "", "", 0,
    ⟨0, 0, 0, 0, 0, 0, 0, 0, 0, 0, false, false, false, 0, 0, 0, 0, 0, 0⟩,
    "", SegV2.DurationChoice.short30, ""⟩

/-- Eight filler words spread over 21.4s: a candidate slice whose initial score
is 0.426, below the 0.50 rejection threshold. -/
def umWords : List SegV2.TranscriptWord :=
  [⟨"um", 2, 2.4⟩, ⟨"um", 5, 5.4⟩, ⟨"um", 8, 8.4⟩, ⟨"um", 11, 11.4⟩,
   ⟨"um", 14, 14.4⟩, ⟨"um", 17, 17.4⟩, ⟨"um", 20, 20.4⟩, ⟨"um", 23, 23.4⟩]

/-- Speaker words for the framing counterexamples: one speaker talking through
the whole clip. -/
def framingWordsA : List Framing.FTranscriptWord := [⟨0, 5, "hello", some "A"⟩]

/-- A single face track sampled every 0.5s whose center sits at x=200 until t=3
and jumps to x=1700 from t=3.5 on. -/
def framingTrackA : Framing.FaceTrack :=
  ⟨"track_0", (List.range 11).map (fun i =>
    ⟨(i : ℚ) / 2, if (i : ℚ) / 2 ≤ 3 then 150 else 1650, 400, 100, 100, none⟩)⟩

/-- Constraints for the margin counterexample: 10% margin, 100 px/s pan cap,
2s edge easing. -/
def framingConsA : Framing.Constraints := ⟨0.1, 100, 2000, 0, 0, 0⟩

/-- Speaker words for the bounding counterexample. -/
def framingWordsB : List Framing.FTranscriptWord := [⟨0, 2, "hello", some "A"⟩]

/-- A single static face track at the top of the frame. -/
def framingTrackB : Framing.FaceTrack :=
  ⟨"track_0", (List.range 5).map (fun i => ⟨(i : ℚ) / 2, 910, 0, 100, 100, none⟩)⟩

/-- Constraints with a 5% top safe zone. -/
def framingConsB : Framing.Constraints := ⟨0.1, 100, 2000, 0, 0.05, 0⟩

/-- Speaker words for the pan-rate counterexample. -/
def framingWordsC : List Framing.FTranscriptWord := [⟨0, 8, "hello", some "A"⟩]

/-- A single face track sampled every 1/3s moving right at 450 px/s until it
stops at x-center 1700. -/
def framingTrackC : Framing.FaceTrack :=
  ⟨"track_0", (List.range 25).map (fun i =>
    ⟨(i : ℚ) / 3, min (250 + 150 * (i : ℚ)) 1600, 400, 100, 100, none⟩)⟩

/-- Constraints for the pan-rate counterexample: no margin, 300 px/s pan cap,
3s edge easing. -/
def framingConsC : Framing.Constraints := ⟨0, 300, 3000, 0, 0, 0⟩

/-- A single static face track centered at `cx = 960` in a 1920×1080 frame: the
margin window is feasible at every sample. -/
def framingTrackD : Framing.FaceTrack :=
  ⟨"track_0", [⟨0, 800, 400, 320, 320, none⟩, ⟨1, 800, 400, 320, 320, none⟩]⟩

/-- A one-window speaker-to-track mapping covering `framingTrackD`. -/
def framingMapD : List Framing.MapWin := [⟨0, 2, "track_0"⟩]

section SortLemmas

variable {α : Type _} (lt : α → α → Bool)

theorem jsInsert_perm (x : α) (l : List α) : List.Perm (jsInsert lt x l) (x :: l) := by
  induction l with
  | nil => simp [jsInsert]
  | cons y ys ih =>
      by_cases h : lt x y
      · simp [jsInsert, h]
      · simp only [jsInsert, h, if_false]
        exact (ih.cons y).trans (List.Perm.swap x y ys)

theorem jsSortBy_foldl_perm (l acc : List α) :
    List.Perm (l.foldl (fun a x => jsInsert lt x a) acc) (acc ++ l) := by
  induction l generalizing acc with
  | nil => simp
  | cons x xs ih =>
      refine ((ih (jsInsert lt x acc)).trans ?_)
      refine ((jsInsert_perm lt x acc).append_right xs).trans ?_
      simpa using List.perm_middle.symm

theorem jsSortBy_perm (l : List α) : List.Perm (jsSortBy lt l) l := by
  simpa [jsSortBy] using jsSortBy_foldl_perm lt l []

theorem mem_jsSortBy {x : α} {l : List α} (h : x ∈ jsSortBy lt l) : x ∈ l :=
  (jsSortBy_perm lt l).mem_iff.mp h

theorem mem_of_mem_jsInsert {x y : α} {l : List α} (h : x ∈ jsInsert lt y l) :
    x = y ∨ x ∈ l := by
  have := (jsInsert_perm lt y l).mem_iff.mp h
  simpa using this

theorem jsInsert_pairwise (hasym : ∀ a b, lt a b = true → lt b a = false)
    (hneg : ∀ a b c, lt b a = false → lt c b = false → lt c a = false)
    {x : α} {l : List α} (hl : l.Pairwise (fun a b => lt b a = false)) :
    (jsInsert lt x l).Pairwise (fun a b => lt b a = false) := by
  induction l with
  | nil => simp [jsInsert]
  | cons y ys ih =>
      rcases List.pairwise_cons.mp hl with ⟨hy, hys⟩
      by_cases h : lt x y
      · simp only [jsInsert, h, if_true]
        refine List.pairwise_cons.mpr ⟨?_, hl⟩
        intro z hz
        rcases List.mem_cons.mp hz with rfl | hz
        · exact hasym x z h
        · exact hneg x y z (hasym x y h) (hy z hz)
      · have hxy : lt x y = false := by simpa using h
        simp only [jsInsert, h, if_false]
        refine List.pairwise_cons.mpr ⟨?_, ih hys⟩
        intro z hz
        rcases mem_of_mem_jsInsert lt hz with rfl | hz
        · exact hxy
        · exact hy z hz

theorem jsSortBy_pairwise (hasym : ∀ a b, lt a b = true → lt b a = false)
    (hneg : ∀ a b c, lt b a = false → lt c b = false → lt c a = false)
    (l : List α) : (jsSortBy lt l).Pairwise (fun a b => lt b a = false) := by
  suffices h : ∀ acc, acc.Pairwise (fun a b => lt b a = false) →
      (l.foldl (fun a x => jsInsert lt x a) acc).Pairwise (fun a b => lt b a = false) by
    exact h [] (by simp)
  induction l with
  | nil => intro acc hacc; simpa using hacc
  | cons x xs ih =>
      intro acc hacc
      exact ih (jsInsert lt x acc) (jsInsert_pairwise lt hasym hneg hacc)

end SortLemmas

/-- `jsRound` of an integer is the integer itself. -/
theorem jsRound_intCast (n : ℤ) : jsRound (n : ℚ) = n := by
  unfold jsRound
  rw [Int.floor_eq_iff]
  constructor <;> push_cast <;> linarith

/-- `jsRound` moves its argument by at most `1/2` in either direction. -/
theorem jsRound_bounds (q : ℚ) :
    (q - 1/2 : ℚ) ≤ (jsRound q : ℚ) ∧ ((jsRound q : ℚ)) ≤ q + 1/2 := by
  unfold jsRound
  constructor
  · have := Int.sub_one_lt_floor (q + 1/2)
    push_cast at this ⊢
    linarith
  · have := Int.floor_le (q + 1/2)
    push_cast at this ⊢
    linarith

/-- `jsRound` stays between any integer bounds enclosing its argument. -/
theorem jsRound_mem_Icc {lo hi : ℤ} {q : ℚ} (h1 : (lo : ℚ) ≤ q) (h2 : q ≤ (hi : ℚ)) :
    lo ≤ jsRound q ∧ jsRound q ≤ hi := by
  constructor
  · exact Int.le_floor.mpr (by linarith)
  · by_contra hlt
    push_neg at hlt
    have h3 : (hi + 1 : ℤ) ≤ jsRound q := by omega
    have h4 : ((hi + 1 : ℤ) : ℚ) ≤ q + 1/2 := Int.le_floor.mp h3
    push_cast at h4
    linarith

/-- `jsRound` of a non-negative rational is non-negative. -/
theorem jsRound_nonneg {q : ℚ} (h : 0 ≤ q) : 0 ≤ jsRound q :=
  Int.le_floor.mpr (by push_cast; linarith)

namespace SegV2

theorem noOverlapRel_symm : ∀ {x y : EnhancedSegment}, noOverlapRel x y → noOverlapRel y x :=
  fun h => h.symm

theorem mem_removeOverlapsGo {x : EnhancedSegment} :
    ∀ {l acc : List EnhancedSegment}, x ∈ removeOverlapsGo acc l → x ∈ acc ∨ x ∈ l := by
  intro l
  induction l with
  | nil => intro acc h; exact Or.inl (by simpa [removeOverlapsGo] using h)
  | cons y ys ih =>
      intro acc h
      simp only [removeOverlapsGo] at h
      by_cases hov : acc.any (fun e => hasOverlap y e)
      · rw [if_pos hov] at h
        rcases ih h with h1 | h1
        · exact Or.inl h1
        · exact Or.inr (List.mem_cons_of_mem _ h1)
      · rw [if_neg hov] at h
        rcases ih h with h1 | h1
        · rcases List.mem_append.mp h1 with h2 | h2
          · exact Or.inl h2
          · exact Or.inr (List.mem_cons.mpr (Or.inl (by simpa using h2)))
        · exact Or.inr (List.mem_cons_of_mem _ h1)

theorem removeOverlapsGo_pairwise :
    ∀ (l acc : List EnhancedSegment), acc.Pairwise noOverlapRel →
      (removeOverlapsGo acc l).Pairwise noOverlapRel := by
  intro l
  induction l with
  | nil => intro acc h; simpa [removeOverlapsGo] using h
  | cons y ys ih =>
      intro acc hacc
      simp only [removeOverlapsGo]
      by_cases hov : acc.any (fun e => hasOverlap y e)
      · rw [if_pos hov]; exact ih acc hacc
      · rw [if_neg hov]
        refine ih _ (List.pairwise_append.mpr ⟨hacc, by simp, ?_⟩)
        intro a ha b hb
        have hb' : b = y := by simpa using hb
        rw [hb']
        have hno : hasOverlap y a = false := by
          by_contra hc
          exact hov (List.any_eq_true.mpr ⟨a, ha, by simpa using hc⟩)
        simp only [hasOverlap, Bool.not_eq_false', Bool.or_eq_true, decide_eq_true_eq] at hno
        exact Or.symm hno

theorem mem_removeOverlaps {x : EnhancedSegment} {l : List EnhancedSegment}
    (h : x ∈ removeOverlaps l) : x ∈ l := by
  by_cases hl : l.isEmpty
  · simp [removeOverlaps, hl] at h
  · rw [removeOverlaps, if_neg hl] at h
    have h1 := mem_jsSortBy _ h
    rcases mem_removeOverlapsGo h1 with h2 | h2
    · simp at h2
    · exact mem_jsSortBy _ h2

theorem removeOverlaps_pairwise (l : List EnhancedSegment) :
    (removeOverlaps l).Pairwise noOverlapRel := by
  by_cases hl : l.isEmpty
  · simp [removeOverlaps, hl]
  · rw [removeOverlaps, if_neg hl]
    have hgo := removeOverlapsGo_pairwise
      (jsSortBy (fun a b => decide (b.score < a.score)) l) [] (by simp)
    exact ((jsSortBy_perm _ _).pairwise_iff noOverlapRel_symm).mpr hgo

theorem removeOverlaps_chron (l : List EnhancedSegment) :
    (removeOverlaps l).Pairwise (fun a b => a.startSec ≤ b.startSec) := by
  by_cases hl : l.isEmpty
  · simp [removeOverlaps, hl]
  · rw [removeOverlaps, if_neg hl]
    have := jsSortBy_pairwise (fun a b : EnhancedSegment => decide (a.startSec < b.startSec))
      (fun a b hab => by
        simp only [decide_eq_true_eq] at hab
        simpa using not_lt.mpr hab.le)
      (fun a b c hba hcb => by
        simp only [decide_eq_false_iff_not, not_lt] at hba hcb ⊢
        exact hba.trans hcb)
      (removeOverlapsGo [] (jsSortBy (fun a b => decide (b.score < a.score)) l))
    refine this.imp ?_
    intro a b hab
    simpa [not_lt] using hab

theorem mem_diversityGo {x : EnhancedSegment} :
    ∀ {l acc : List EnhancedSegment}, x ∈ diversityGo 0.7 acc l → x ∈ acc ∨ x ∈ l := by
  intro l
  induction l with
  | nil => intro acc h; exact Or.inl (by simpa [diversityGo] using h)
  | cons y ys ih =>
      intro acc h
      simp only [diversityGo] at h
      by_cases hsim : acc.any (fun e => decide (textSimilarity y.text e.text > 0.7))
      · rw [if_pos hsim] at h
        rcases ih h with h1 | h1
        · exact Or.inl h1
        · exact Or.inr (List.mem_cons_of_mem _ h1)
      · rw [if_neg hsim] at h
        rcases ih h with h1 | h1
        · rcases List.mem_append.mp h1 with h2 | h2
          · exact Or.inl h2
          · exact Or.inr (List.mem_cons.mpr (Or.inl (by simpa using h2)))
        · exact Or.inr (List.mem_cons_of_mem _ h1)

theorem mem_applyDiversityFilter {x : EnhancedSegment} {l : List EnhancedSegment}
    (h : x ∈ applyDiversityFilter l 0.7) : x ∈ l := by
  by_cases hl : l.isEmpty
  · simp [applyDiversityFilter, hl] at h
  · rw [applyDiversityFilter, if_neg hl] at h
    rcases hs : jsSortBy (fun a b => decide (b.score < a.score)) l with _ | ⟨s0, rest⟩
    · rw [hs] at h; simp at h
    · rw [hs] at h
      rcases mem_diversityGo h with h1 | h1
      · have : x = s0 := by simpa using h1
        subst this
        exact mem_jsSortBy _ (hs ▸ List.mem_cons_self x rest)
      · exact mem_jsSortBy _ (hs ▸ List.mem_cons_of_mem s0 h1)

theorem mem_applyQualityGuards {x : EnhancedSegment} {l : List EnhancedSegment}
    (h : x ∈ applyQualityGuards l) : x ∈ l ∧ passesQualityGuards x = true := by
  exact ⟨(List.mem_filter.mp h).1, (List.mem_filter.mp h).2⟩

theorem candidatesOf_eq_nil_of_no_words {transcript : List TranscriptSegment}
    {sceneChanges : List SceneChange} {chapters : List Chapter} {videoDuration : ℚ}
    {commentHotspots : List ℚ}
    (h : ((transcript.map (·.words)).flatten : List TranscriptWord).isEmpty) :
    candidatesOf transcript sceneChanges chapters videoDuration commentHotspots = [] := by
  unfold candidatesOf
  rw [List.isEmpty_iff] at h
  rw [h]
  have : ∀ w, windowCandidates [] sceneChanges commentHotspots w = [] := by
    intro w
    simp [windowCandidates]
  simp [this]

theorem detect_eq_survivors_take (transcript : List TranscriptSegment)
    (sceneChanges : List SceneChange) (chapters : List Chapter) (videoDuration : ℚ)
    (commentHotspots : List ℚ) :
    detectEnhancedSegments transcript sceneChanges chapters videoDuration commentHotspots =
      (survivorsOf transcript sceneChanges chapters videoDuration commentHotspots).take 12 := by
  unfold detectEnhancedSegments survivorsOf
  by_cases h : ((transcript.map (·.words)).flatten : List TranscriptWord).isEmpty
  · rw [if_pos h, candidatesOf_eq_nil_of_no_words h]
    simp [applyQualityGuards, applyDiversityFilter, removeOverlaps]
  · rw [if_neg h]

theorem mem_detect {x : EnhancedSegment} {transcript : List TranscriptSegment}
    {sceneChanges : List SceneChange} {chapters : List Chapter} {videoDuration : ℚ}
    {commentHotspots : List ℚ}
    (h : x ∈ detectEnhancedSegments transcript sceneChanges chapters videoDuration commentHotspots) :
    x ∈ candidatesOf transcript sceneChanges chapters videoDuration commentHotspots ∧
      passesQualityGuards x = true := by
  rw [detect_eq_survivors_take] at h
  have h1 : x ∈ survivorsOf transcript sceneChanges chapters videoDuration commentHotspots :=
    (List.take_sublist _ _).mem h
  have h2 := mem_applyDiversityFilter (mem_removeOverlaps h1)
  exact mem_applyQualityGuards h2

end SegV2

namespace SegV2

theorem buildCandidate_score_lt_half {windowWords : List TranscriptWord}
    {sceneChanges : List SceneChange} {hotspots : List ℚ} {chapterTitle : String}
    {bi bj : Nat}
    (h : initialScoreOf windowWords sceneChanges hotspots bi bj < 0.5) :
    buildCandidate windowWords sceneChanges hotspots chapterTitle bi bj = none := by
  unfold buildCandidate
  simp only
  split
  · rfl
  · split
    · rfl
    · rw [if_pos]
      exact h

theorem buildCandidate_fields {windowWords : List TranscriptWord}
    {sceneChanges : List SceneChange} {hotspots : List ℚ} {chapterTitle : String}
    {bi bj : Nat} {seg : EnhancedSegment}
    (h : buildCandidate windowWords sceneChanges hotspots chapterTitle bi bj = some seg) :
    8 ≤ ((windowWords.drop bi).take (bj - bi)).length ∧
    20 ≤ ((((windowWords.drop bi).take (bj - bi)).getLastD dummyWord).endSec -
      (((windowWords.drop bi).take (bj - bi)).headD dummyWord).start) ∧
    ((((windowWords.drop bi).take (bj - bi)).getLastD dummyWord).endSec -
      (((windowWords.drop bi).take (bj - bi)).headD dummyWord).start) ≤ 82 ∧
    seg.startSec = (((windowWords.drop bi).take (bj - bi)).headD dummyWord).start ∧
    (let segWords := (windowWords.drop bi).take (bj - bi)
     let startSec := (segWords.headD dummyWord).start
     let endSec := (segWords.getLastD dummyWord).endSec
     let duration := endSec - startSec
     let tc := chooseDuration (calculateSegmentFeatures segWords startSec endSec
       sceneChanges hotspots) duration
     let adj := adjustSegmentToNarrativeBoundary segWords startSec endSec tc.1
     seg.endSec = adj.2 ∧ seg.durationSec = adj.2 - startSec ∧
       seg.durationChoice = tc.2 ∧ seg.words = adj.1 ∧
       seg.features = calculateSegmentFeatures adj.1 startSec adj.2 sceneChanges hotspots ∧
       seg.score = scoreSegment seg.features) := by
  unfold buildCandidate at h
  simp only at h
  split at h
  · exact absurd h (by simp)
  · next h8 =>
    split at h
    · exact absurd h (by simp)
    · next hdur =>
      split at h
      · exact absurd h (by simp)
      · split at h
        · exact absurd h (by simp)
        · split at h
          · exact absurd h (by simp)
          · rw [Option.some.injEq] at h
            rw [← h]
            simp only [not_lt] at h8
            simp only [Bool.or_eq_true, decide_eq_true_eq, not_or, not_lt] at hdur
            exact ⟨h8, hdur.1, hdur.2, rfl, rfl, rfl, rfl, rfl, rfl, rfl⟩

theorem mem_candidatesOf {x : EnhancedSegment} {transcript : List TranscriptSegment}
    {sceneChanges : List SceneChange} {chapters : List Chapter} {videoDuration : ℚ}
    {commentHotspots : List ℚ}
    (h : x ∈ candidatesOf transcript sceneChanges chapters videoDuration commentHotspots) :
    ∃ w ∈ windowsOf transcript chapters videoDuration, ∃ bi bj,
      buildCandidate
        (((transcript.map (·.words)).flatten).filter
          (fun t => t.start ≥ w.start && t.start < w.endSec))
        sceneChanges commentHotspots w.chapterTitle bi bj = some x := by
  unfold candidatesOf at h
  rcases List.mem_flatMap.mp h with ⟨w, hw, hx⟩
  refine ⟨w, hw, ?_⟩
  unfold windowCandidates at hx
  dsimp only at hx
  split at hx
  · simp at hx
  · rcases List.mem_filterMap.mp hx with ⟨p, _, hp⟩
    exact ⟨p.1, p.2, hp⟩

end SegV2

/-- C1: for every result list of the segmentation engine entry point
`detectEnhancedSegments` and every pair of distinct segments `a`, `b` in it,
`a.endSec ≤ b.startSec` or `b.endSec ≤ a.startSec` — returned time spans never
intersect. -/
theorem C1_detect_segments_no_overlap (transcript : List SegV2.TranscriptSegment)
    (sceneChanges : List SegV2.SceneChange) (chapters : List SegV2.Chapter)
    (videoDuration : ℚ) (commentHotspots : List ℚ) :
    (SegV2.detectEnhancedSegments transcript sceneChanges chapters videoDuration
      commentHotspots).Pairwise SegV2.noOverlapRel := by
  rw [SegV2.detect_eq_survivors_take]
  exact List.Pairwise.sublist (List.take_sublist _ _) (SegV2.removeOverlaps_pairwise _)

/-- C9: `detectEnhancedSegments` returns at most 12 segments, ordered
chronologically by `startSec` ascending. -/
theorem C9_cap_and_chronological (transcript : List SegV2.TranscriptSegment)
    (sceneChanges : List SegV2.SceneChange) (chapters : List SegV2.Chapter)
    (videoDuration : ℚ) (commentHotspots : List ℚ) :
    (SegV2.detectEnhancedSegments transcript sceneChanges chapters videoDuration
      commentHotspots).length ≤ 12 ∧
    (SegV2.detectEnhancedSegments transcript sceneChanges chapters videoDuration
      commentHotspots).Pairwise (fun a b => a.startSec ≤ b.startSec) := by
  rw [SegV2.detect_eq_survivors_take]
  exact ⟨List.length_take_le _ _,
    List.Pairwise.sublist (List.take_sublist _ _) (SegV2.removeOverlaps_chron _)⟩

/-- C10 (implicit): the cap of 12 is applied after the final chronological
re-sort, not to the score ranking — the result is the prefix of length at most 12
of the chronologically sorted survivor list, so when more than 12 candidates
survive the filters the 12 chronologically earliest survivors are returned and a
higher-scoring later survivor is dropped. -/
theorem C10_cap_after_chronological_sort (transcript : List SegV2.TranscriptSegment)
    (sceneChanges : List SegV2.SceneChange) (chapters : List SegV2.Chapter)
    (videoDuration : ℚ) (commentHotspots : List ℚ) :
    SegV2.detectEnhancedSegments transcript sceneChanges chapters videoDuration
        commentHotspots =
      (SegV2.survivorsOf transcript sceneChanges chapters videoDuration
        commentHotspots).take 12 ∧
    (SegV2.survivorsOf transcript sceneChanges chapters videoDuration
      commentHotspots).Pairwise (fun a b => a.startSec ≤ b.startSec) :=
  ⟨SegV2.detect_eq_survivors_take _ _ _ _ _, SegV2.removeOverlaps_chron _⟩

/-- C6: every segment in a `detectEnhancedSegments` result has at least 3 words
starting within the first 3 seconds after its `startSec`; a candidate with fewer
is excluded by the quality gate regardless of its score. -/
theorem C6_quality_gate_min_words (transcript : List SegV2.TranscriptSegment)
    (sceneChanges : List SegV2.SceneChange) (chapters : List SegV2.Chapter)
    (videoDuration : ℚ) (commentHotspots : List ℚ) (seg : SegV2.EnhancedSegment)
    (hmem : seg ∈ SegV2.detectEnhancedSegments transcript sceneChanges chapters
      videoDuration commentHotspots) :
    3 ≤ (seg.words.filter (fun w => w.start - seg.startSec < 3)).length := by
  have h := (SegV2.mem_detect hmem).2
  unfold SegV2.passesQualityGuards at h
  simp only [Bool.and_eq_true, Bool.not_eq_true', decide_eq_false_iff_not, not_lt] at h
  exact h.1.1.1.1

/-- C7: every emitted segment's score is exactly the fixed convex combination of
its features (hook 24%, retention 18%, clarity 12%, coherence 10%, closure 10%,
arc 8%, engagement 8%, novelty 5%, visual 3%, safety 2%), and every enumerated
candidate whose initial score is below 0.50 is rejected before duration
adjustment and never emitted. -/
theorem C7_score_formula_and_cutoff :
    (∀ (transcript : List SegV2.TranscriptSegment) (sceneChanges : List SegV2.SceneChange)
      (chapters : List SegV2.Chapter) (videoDuration : ℚ) (commentHotspots : List ℚ)
      (seg : SegV2.EnhancedSegment),
      seg ∈ SegV2.detectEnhancedSegments transcript sceneChanges chapters videoDuration
        commentHotspots →
      seg.score =
        0.24 * seg.features.hookScore + 0.18 * seg.features.retentionScore +
        0.12 * seg.features.clarityScore + 0.10 * seg.features.coherenceScore +
        0.10 * seg.features.closureScore + 0.08 * seg.features.arcScore +
        0.08 * seg.features.engagementScore + 0.05 * seg.features.noveltyScore +
        0.03 * seg.features.visualScore + 0.02 * seg.features.safetyScore) ∧
    (∀ (windowWords : List SegV2.TranscriptWord) (sceneChanges : List SegV2.SceneChange)
      (hotspots : List ℚ) (chapterTitle : String) (bi bj : Nat),
      SegV2.initialScoreOf windowWords sceneChanges hotspots bi bj < 0.5 →
      SegV2.buildCandidate windowWords sceneChanges hotspots chapterTitle bi bj = none) := by
  constructor
  · intro transcript sceneChanges chapters videoDuration commentHotspots seg hmem
    obtain ⟨hc, _⟩ := SegV2.mem_detect hmem
    obtain ⟨w, hw, bi, bj, hbc⟩ := SegV2.mem_candidatesOf hc
    obtain ⟨_, _, _, _, hlet⟩ := SegV2.buildCandidate_fields hbc
    simp only at hlet
    obtain ⟨_, _, _, _, _, hscore⟩ := hlet
    rw [hscore]
    rfl
  · intro windowWords sceneChanges hotspots chapterTitle bi bj h
    exact SegV2.buildCandidate_score_lt_half h

theorem C7_score_cutoff_witness :
    SegV2.initialScoreOf umWords [] [] 0 8 < 0.5 ∧
    SegV2.buildCandidate umWords [] [] "Full Video" 0 8 = none :=
  ⟨by decide,
   C7_score_formula_and_cutoff.2 umWords [] [] "Full Video" 0 8 (by decide)⟩

theorem headD_mem {α : Type _} (l : List α) (d : α) (h : l ≠ []) : l.headD d ∈ l := by
  cases l with
  | nil => exact absurd rfl h
  | cons x xs => exact List.mem_cons_self x xs

theorem C6_quality_gate_witness :
    3 ≤ (((SegV2.detectEnhancedSegments goldenTranscript [] [] 50 []).headD
        ⟨0, 0, 0, [], "", "", 0,
          ⟨0, 0, 0, 0, 0, 0, 0, 0, 0, 0, false, false, false, 0, 0, 0, 0, 0, 0⟩, "",
          SegV2.DurationChoice.short30, ""⟩).words.filter
      (fun w => w.start - ((SegV2.detectEnhancedSegments goldenTranscript [] [] 50
        []).headD
        ⟨0, 0, 0, [], "", "", 0,
          ⟨0, 0, 0, 0, 0, 0, 0, 0, 0, 0, false, false, false, 0, 0, 0, 0, 0, 0⟩, "",
          SegV2.DurationChoice.short30, ""⟩).startSec < 3)).length :=
  C6_quality_gate_min_words goldenTranscript [] [] 50 [] _
    (headD_mem _ _ (by
      intro hnil
      have : (SegV2.detectEnhancedSegments goldenTranscript [] [] 50 []).length = 1 := by
        decide
      rw [hnil] at this
      exact absurd this (by decide)))

/-- Counterexample to C2 as stated: a returned segment in the `short30` tier
(claimed nominal ceiling 32s) whose refined duration 41.1s exceeds 32 + 6. The
tier's actual target can be any value below 42s, so the refined duration can
reach beyond the claimed ceiling plus the 6s search window. -/
theorem C2_short_tier_counterexample :
    ∃ seg ∈ SegV2.detectEnhancedSegments goldenTranscript [] [] 50 [],
      seg.durationChoice = SegV2.DurationChoice.short30 ∧ 32 + 6 < seg.durationSec := by
  decide

/-- C8: the framing engine returns `null` whenever the speaker timeline, the
face-track list, the speaker-to-track mapping or the smoothed keyframe list is
empty, and a non-null result is never the empty list. The face-detection stage
itself is I/O and enters the model as the `tracks` input, so "zero faces
detected" is the `tracks = []` case. -/
theorem C8_null_on_missing_signal (transcript : List Framing.FTranscriptWord)
    (tracks : List Framing.FaceTrack) (baseW baseH : ℤ) (segStart segEnd : ℚ)
    (c : Framing.Constraints) :
    (Framing.buildSpeakerTimeline transcript segStart segEnd = [] →
      Framing.computeCropMapPure transcript tracks baseW baseH segStart segEnd c = none) ∧
    (tracks = [] →
      Framing.computeCropMapPure transcript tracks baseW baseH segStart segEnd c = none) ∧
    (Framing.mapSpeakersToTracks (Framing.buildSpeakerTimeline transcript segStart segEnd)
        tracks = [] →
      Framing.computeCropMapPure transcript tracks baseW baseH segStart segEnd c = none) ∧
    (Framing.smoothAndConstrain
        (Framing.buildKeyframes
          (Framing.mapSpeakersToTracks
            (Framing.buildSpeakerTimeline transcript segStart segEnd) tracks)
          tracks baseW baseH c) baseW baseH segStart segEnd c = [] →
      Framing.computeCropMapPure transcript tracks baseW baseH segStart segEnd c = none) ∧
    (∀ out, Framing.computeCropMapPure transcript tracks baseW baseH segStart segEnd c =
        some out → out ≠ []) := by
  refine ⟨?_, ?_, ?_, ?_, ?_⟩
  · intro h
    unfold Framing.computeCropMapPure
    simp [h]
  · intro h
    unfold Framing.computeCropMapPure
    by_cases h1 : (Framing.buildSpeakerTimeline transcript segStart segEnd).isEmpty <;>
      simp [h, h1]
  · intro h
    unfold Framing.computeCropMapPure
    by_cases h1 : (Framing.buildSpeakerTimeline transcript segStart segEnd).isEmpty <;>
      by_cases h2 : tracks.isEmpty <;> simp [h, h1, h2]
  · intro h
    unfold Framing.computeCropMapPure
    by_cases h1 : (Framing.buildSpeakerTimeline transcript segStart segEnd).isEmpty <;>
      by_cases h2 : tracks.isEmpty <;>
      by_cases h3 : (Framing.mapSpeakersToTracks
        (Framing.buildSpeakerTimeline transcript segStart segEnd) tracks).isEmpty <;>
      simp [h, h1, h2, h3]
  · intro out hout
    unfold Framing.computeCropMapPure at hout
    by_cases h1 : (Framing.buildSpeakerTimeline transcript segStart segEnd).isEmpty
    · simp [h1] at hout
    · by_cases h2 : tracks.isEmpty
      · simp [h1, h2] at hout
      · by_cases h3 : (Framing.mapSpeakersToTracks
          (Framing.buildSpeakerTimeline transcript segStart segEnd) tracks).isEmpty
        · simp [h1, h2, h3] at hout
        · by_cases h4 : (Framing.smoothAndConstrain
            (Framing.buildKeyframes
              (Framing.mapSpeakersToTracks
                (Framing.buildSpeakerTimeline transcript segStart segEnd) tracks)
              tracks baseW baseH c) baseW baseH segStart segEnd c).isEmpty
          · simp [h1, h2, h3, h4] at hout
          · simp only [h1, h2, h3, h4, if_false, Bool.false_eq_true, Option.some.injEq] at hout
            rw [← hout]
            exact fun hc => (by simp [hc] at h4)

/-- Counterexample to C3 as stated: at the final `computeCropMap` output the
keyframe at t=5 has `x = 239` while the track's subject center there is
`cx = 1700`, so the right margin `(x + w) - cx` is negative — off the claimed
`marginPx - ε` bound by over 900 px — even though the source frame is wide
enough (`targetW + 2·marginPx ≤ baseW`). The smoothing, pan-rate-limiting and
edge-easing stages run after the margin clamp and undo it. -/
theorem C3_margin_counterexample :
    ((Framing.computeCropMapPure framingWordsA [framingTrackA] 1920 1080 0 5
        framingConsA).getD []).getD 10 ⟨0, 0, 0, 0, 0⟩ = ⟨5, 239, 0, 607, 1080⟩ ∧
    (framingTrackA.boxes.getD 10 ⟨0, 0, 0, 0, 0, none⟩).t = 5 ∧
    (Framing.subjectCenter (framingTrackA.boxes.getD 10 ⟨0, 0, 0, 0, 0, none⟩) 1920 1080
      framingConsA 1080).1 = 1700 ∧
    ((239 : ℚ) + 607) - 1700 < max 0 framingConsA.margin * 607 - 900 ∧
    (607 : ℚ) + 2 * (max 0 framingConsA.margin * 607) ≤ 1920 := by
  decide

/-- Counterexample to C4 as stated: with a positive top safe-zone fraction the
vertical clamp is `max(-safeTop, min(y, baseH - targetH + safeBottom))`, so a
face near the top of the frame yields keyframes with `y = -54 < 0`, violating
`0 ≤ y ≤ sourceHeight - h` (which would force `y = 0` since `h = sourceHeight`). -/
theorem C4_bounding_counterexample :
    ((Framing.computeCropMapPure framingWordsB [framingTrackB] 1920 1080 0 2
        framingConsB).getD []).getD 0 ⟨0, 0, 0, 0, 0⟩ = ⟨0, 657, -54, 607, 1080⟩ ∧
    (-54 : ℤ) < 0 := by
  decide

/-- Counterexample to C5 as stated: in the final `computeCropMap` output the
consecutive keyframes at t=5/3 and t=2 move by 133 px although
`maxPanPxPerSecond · Δt = 100` — the edge-easing stage, which runs after the
pan-rate limiter, re-interpolates from the damped path and exceeds the bound by
far more than any rounding slack. -/
theorem C5_pan_rate_counterexample :
    ((Framing.computeCropMapPure framingWordsC [framingTrackC] 1920 1080 0 8
        framingConsC).getD []).getD 5 ⟨0, 0, 0, 0, 0⟩ = ⟨5/3, 547, 0, 607, 1080⟩ ∧
    ((Framing.computeCropMapPure framingWordsC [framingTrackC] 1920 1080 0 8
        framingConsC).getD []).getD 6 ⟨0, 0, 0, 0, 0⟩ = ⟨2, 680, 0, 607, 1080⟩ ∧
    (680 - 547 : ℚ) > framingConsC.maxPan * (2 - 5/3) + 30 := by
  decide

theorem C8_null_witness :
    Framing.computeCropMapPure framingWordsB [] 1920 1080 0 2 framingConsB = none ∧
    Framing.computeCropMapPure [] [framingTrackB] 1920 1080 0 2 framingConsB = none :=
  ⟨(C8_null_on_missing_signal framingWordsB [] 1920 1080 0 2 framingConsB).2.1 rfl,
   (C8_null_on_missing_signal [] [framingTrackB] 1920 1080 0 2 framingConsB).1 (by decide)⟩

namespace Framing

theorem stepLimit_dist {a b m : ℤ} (hm : 0 ≤ m) : |stepLimit a b m - a| ≤ m := by
  unfold stepLimit
  split_ifs with h1 h2
  · exact h1
  · rw [show a + m - a = m by ring, abs_of_nonneg hm]
  · rw [show a - m - a = -m by ring, abs_neg, abs_of_nonneg hm]

theorem stepLimit_between {a b m : ℤ} (hm : 0 ≤ m) :
    min a b ≤ stepLimit a b m ∧ stepLimit a b m ≤ max a b := by
  unfold stepLimit
  split_ifs with h1 h2
  · omega
  · rw [not_le] at h1
    rcases lt_abs.mp h1 with h | h <;> omega
  · rw [not_le] at h1
    rcases lt_abs.mp h1 with h | h <;> omega

theorem rateLimitGo_length (maxPan : ℚ) :
    ∀ (l : List CropKF) (prev : CropKF), (rateLimitGo maxPan prev l).length = l.length := by
  intro l
  induction l with
  | nil => intro prev; rfl
  | cons s rs ih => intro prev; simp [rateLimitGo, ih]

theorem rateLimitPath_length (maxPan : ℚ) (sm : List CropKF) :
    (rateLimitPath maxPan sm).length = sm.length := by
  cases sm with
  | nil => rfl
  | cons s rs => simp [rateLimitPath, rateLimitGo_length]

theorem rateLimitGo_build (maxPan : ℚ) :
    ∀ (rest : List CropKF) (prev d : CropKF) (i : Nat), i + 1 < (prev :: rest).length →
      (prev :: rateLimitGo maxPan prev rest).getD (i + 1) d =
        mkStep maxPan ((prev :: rateLimitGo maxPan prev rest).getD i d) (rest.getD i d) := by
  intro rest
  induction rest with
  | nil => intro prev d i hi; simp at hi
  | cons s rs ih =>
      intro prev d i hi
      cases i with
      | zero => simp [rateLimitGo]
      | succ j =>
          have hj : j + 1 < (mkStep maxPan prev s :: rs).length := by
            simp at hi ⊢
            omega
          have := ih (mkStep maxPan prev s) d j hj
          simpa [rateLimitGo] using this

theorem rateLimitPath_getD_succ (maxPan : ℚ) (sm : List CropKF) (d : CropKF) (i : Nat)
    (hi : i + 1 < sm.length) :
    (rateLimitPath maxPan sm).getD (i + 1) d =
      mkStep maxPan ((rateLimitPath maxPan sm).getD i d) (sm.getD (i + 1) d) := by
  cases sm with
  | nil => simp at hi
  | cons s rs =>
      have := rateLimitGo_build maxPan rs s d i (by simpa using hi)
      simpa [rateLimitPath] using this

end Framing

/-- C5 (amended): the pan-rate bound holds for the output of the pan-rate
limiting stage (`rateLimitPath`, stage 2 of `smoothAndConstrain`): consecutive
keyframes satisfy `|Δx| ≤ maxPan · max(0.001, Δt) + 1/2` (and likewise for `y`),
and each step lands between the previous output position and the smoothed
target, never overshooting it. The subsequent edge-easing stage re-interpolates
and can exceed this bound near the clip edges (see the counterexample). -/
theorem C5_pan_rate_amended (maxPan : ℚ) (sm : List Framing.CropKF) (i : Nat)
    (hmp : 0 ≤ maxPan) (hi : i + 1 < (Framing.rateLimitPath maxPan sm).length) :
    |(((Framing.rateLimitPath maxPan sm).getD (i + 1) Framing.zeroKF).x : ℚ) -
        (((Framing.rateLimitPath maxPan sm).getD i Framing.zeroKF).x : ℚ)| ≤
      maxPan * max 0.001 (((Framing.rateLimitPath maxPan sm).getD (i + 1) Framing.zeroKF).t -
        ((Framing.rateLimitPath maxPan sm).getD i Framing.zeroKF).t) + 1/2 ∧
    |(((Framing.rateLimitPath maxPan sm).getD (i + 1) Framing.zeroKF).y : ℚ) -
        (((Framing.rateLimitPath maxPan sm).getD i Framing.zeroKF).y : ℚ)| ≤
      maxPan * max 0.001 (((Framing.rateLimitPath maxPan sm).getD (i + 1) Framing.zeroKF).t -
        ((Framing.rateLimitPath maxPan sm).getD i Framing.zeroKF).t) + 1/2 ∧
    min (((Framing.rateLimitPath maxPan sm).getD i Framing.zeroKF).x)
        ((sm.getD (i + 1) Framing.zeroKF).x) ≤
      ((Framing.rateLimitPath maxPan sm).getD (i + 1) Framing.zeroKF).x ∧
    ((Framing.rateLimitPath maxPan sm).getD (i + 1) Framing.zeroKF).x ≤
      max (((Framing.rateLimitPath maxPan sm).getD i Framing.zeroKF).x)
        ((sm.getD (i + 1) Framing.zeroKF).x) := by
  have hlen : i + 1 < sm.length := by
    rwa [Framing.rateLimitPath_length] at hi
  have hrec := Framing.rateLimitPath_getD_succ maxPan sm Framing.zeroKF i hlen
  set prev := (Framing.rateLimitPath maxPan sm).getD i Framing.zeroKF with hprev
  set smi := sm.getD (i + 1) Framing.zeroKF with hsmi
  rw [hrec]
  have hdt : (0 : ℚ) < max 0.001 (smi.t - prev.t) := lt_max_of_lt_left (by norm_num)
  have hms : 0 ≤ jsRound (maxPan * max 0.001 (smi.t - prev.t)) :=
    jsRound_nonneg (mul_nonneg hmp hdt.le)
  have hmt : ((jsRound (maxPan * max 0.001 (smi.t - prev.t)) : ℤ) : ℚ) ≤
      maxPan * max 0.001 (smi.t - prev.t) + 1/2 := (jsRound_bounds _).2
  have htm : (Framing.mkStep maxPan prev smi).t = smi.t := rfl
  refine ⟨?_, ?_, ?_, ?_⟩
  · have hd := Framing.stepLimit_dist (a := prev.x) (b := smi.x) hms
    have : ((|Framing.stepLimit prev.x smi.x
        (jsRound (maxPan * max 0.001 (smi.t - prev.t))) - prev.x| : ℤ) : ℚ) ≤
        ((jsRound (maxPan * max 0.001 (smi.t - prev.t)) : ℤ) : ℚ) := by
      exact_mod_cast hd
    rw [htm]
    push_cast at this
    calc |((Framing.mkStep maxPan prev smi).x : ℚ) - (prev.x : ℚ)| ≤
        ((jsRound (maxPan * max 0.001 (smi.t - prev.t)) : ℤ) : ℚ) := by
          simpa [Framing.mkStep] using this
      _ ≤ maxPan * max 0.001 (smi.t - prev.t) + 1/2 := hmt
  · have hd := Framing.stepLimit_dist (a := prev.y) (b := smi.y) hms
    have : ((|Framing.stepLimit prev.y smi.y
        (jsRound (maxPan * max 0.001 (smi.t - prev.t))) - prev.y| : ℤ) : ℚ) ≤
        ((jsRound (maxPan * max 0.001 (smi.t - prev.t)) : ℤ) : ℚ) := by
      exact_mod_cast hd
    rw [htm]
    push_cast at this
    calc |((Framing.mkStep maxPan prev smi).y : ℚ) - (prev.y : ℚ)| ≤
        ((jsRound (maxPan * max 0.001 (smi.t - prev.t)) : ℤ) : ℚ) := by
          simpa [Framing.mkStep] using this
      _ ≤ maxPan * max 0.001 (smi.t - prev.t) + 1/2 := hmt
  · exact (Framing.stepLimit_between (a := prev.x) (b := smi.x) hms).1
  · exact (Framing.stepLimit_between (a := prev.x) (b := smi.x) hms).2

theorem C5_pan_rate_witness :
    (0 : ℚ) ≤ 50 ∧ 0 + 1 < (Framing.rateLimitPath 50 rlSm).length ∧
    (|(((Framing.rateLimitPath 50 rlSm).getD (0 + 1) Framing.zeroKF).x : ℚ) -
        (((Framing.rateLimitPath 50 rlSm).getD 0 Framing.zeroKF).x : ℚ)| ≤
      50 * max 0.001 (((Framing.rateLimitPath 50 rlSm).getD (0 + 1) Framing.zeroKF).t -
        ((Framing.rateLimitPath 50 rlSm).getD 0 Framing.zeroKF).t) + 1/2 ∧
    |(((Framing.rateLimitPath 50 rlSm).getD (0 + 1) Framing.zeroKF).y : ℚ) -
        (((Framing.rateLimitPath 50 rlSm).getD 0 Framing.zeroKF).y : ℚ)| ≤
      50 * max 0.001 (((Framing.rateLimitPath 50 rlSm).getD (0 + 1) Framing.zeroKF).t -
        ((Framing.rateLimitPath 50 rlSm).getD 0 Framing.zeroKF).t) + 1/2 ∧
    min (((Framing.rateLimitPath 50 rlSm).getD 0 Framing.zeroKF).x)
        ((rlSm.getD (0 + 1) Framing.zeroKF).x) ≤
      ((Framing.rateLimitPath 50 rlSm).getD (0 + 1) Framing.zeroKF).x ∧
    ((Framing.rateLimitPath 50 rlSm).getD (0 + 1) Framing.zeroKF).x ≤
      max (((Framing.rateLimitPath 50 rlSm).getD 0 Framing.zeroKF).x)
        ((rlSm.getD (0 + 1) Framing.zeroKF).x)) :=
  ⟨by norm_num, by decide, C5_pan_rate_amended 50 rlSm 0 (by norm_num) (by decide)⟩

theorem getD_mem {α : Type _} {l : List α} {i : Nat} (d : α) (h : i < l.length) :
    l.getD i d ∈ l := by
  induction l generalizing i with
  | nil => simp at h
  | cons x xs ih =>
      cases i with
      | zero => exact List.mem_cons_self x xs
      | succ j => exact List.mem_cons_of_mem x (ih (by simpa using h))

theorem list_sum_bounds (lo hi : ℤ) :
    ∀ (l : List ℤ), (∀ x ∈ l, lo ≤ x ∧ x ≤ hi) →
      (l.length : ℤ) * lo ≤ l.sum ∧ l.sum ≤ (l.length : ℤ) * hi := by
  intro l
  induction l with
  | nil => intro _; simp
  | cons x xs ih =>
      intro h
      have hx := h x (List.mem_cons_self x xs)
      have hxs := ih (fun y hy => h y (List.mem_cons_of_mem x hy))
      simp only [List.sum_cons, List.length_cons]
      push_cast
      constructor <;> nlinarith [hxs.1, hxs.2, hx.1, hx.2]

namespace Framing

theorem kfOfBox_inCropBounds (tracks : List FaceTrack) (baseW baseH : ℤ)
    (c : Constraints) (b : FaceBox) (hH : 0 ≤ baseH) (hW : targetWOf baseH ≤ baseW)
    (hst : 0 ≤ c.safeTop) (hsb : 0 ≤ c.safeBottom) :
    inCropBounds baseW baseH c (kfOfBox tracks baseW baseH c b) := by
  have hstpx : 0 ≤ jsRound ((baseH : ℚ) * c.safeTop) :=
    jsRound_nonneg (mul_nonneg (by exact_mod_cast hH) hst)
  have hsbpx : 0 ≤ jsRound ((baseH : ℚ) * c.safeBottom) :=
    jsRound_nonneg (mul_nonneg (by exact_mod_cast hH) hsb)
  unfold kfOfBox kfX kfY inCropBounds
  simp only
  refine ⟨?_, ?_, ?_, ?_, ?_, ?_⟩ <;> first | trivial | omega

theorem mem_smoothPath {kf : List CropKF} {k2 : CropKF} (hk2 : k2 ∈ smoothPath kf) :
    ∃ i, i < kf.length ∧ ∃ win : List CropKF, (∀ x ∈ win, x ∈ kf) ∧ 0 < win.length ∧
      k2 = ⟨(kf.getD i zeroKF).t, jsRound (((win.map (·.x)).sum : ℤ) / (win.length : ℚ)),
        jsRound (((win.map (·.y)).sum : ℤ) / (win.length : ℚ)),
        (kf.getD i zeroKF).w, (kf.getD i zeroKF).h⟩ := by
  unfold smoothPath at hk2
  rcases List.mem_map.mp hk2 with ⟨i, hi, hval⟩
  have hilen : i < kf.length := List.mem_range.mp hi
  refine ⟨i, hilen, (kf.drop (i - 3)).take (min (kf.length - 1) (i + 3) + 1 - (i - 3)),
    ?_, ?_, ?_⟩
  · intro x hx
    exact ((List.take_sublist _ _).trans (List.drop_sublist _ _)).subset hx
  · rw [List.length_take, List.length_drop]
    omega
  · exact hval.symm

theorem mem_smoothPath_bounds {baseW baseH : ℤ} {c : Constraints} {kf : List CropKF}
    (hkf : ∀ k ∈ kf, inCropBounds baseW baseH c k) :
    ∀ k2 ∈ smoothPath kf, inCropBounds baseW baseH c k2 := by
  intro k2 hk2
  rcases mem_smoothPath hk2 with ⟨i, hilen, win, hsub, hn, hk⟩
  have hki := hkf _ (getD_mem zeroKF hilen)
  have hnq : (0 : ℚ) < (win.length : ℚ) := by exact_mod_cast hn
  have hxb := list_sum_bounds 0 (baseW - targetWOf baseH) (win.map (·.x))
    (by
      intro x hx
      rcases List.mem_map.mp hx with ⟨k3, hk3, rfl⟩
      have h3 := hkf _ (hsub _ hk3)
      refine ⟨h3.2.2.1, ?_⟩
      have h4 := h3.2.2.2.1
      rw [h3.1] at h4
      exact h4)
  have hyb := list_sum_bounds (-(jsRound ((baseH : ℚ) * c.safeTop)))
    (jsRound ((baseH : ℚ) * c.safeBottom)) (win.map (·.y))
    (by
      intro y hy
      rcases List.mem_map.mp hy with ⟨k3, hk3, rfl⟩
      have h3 := hkf _ (hsub _ hk3)
      refine ⟨h3.2.2.2.2.1, ?_⟩
      have h4 := h3.2.2.2.2.2
      rw [h3.2.1] at h4
      omega)
  rw [List.length_map] at hxb hyb
  have hx0 : (0 : ℤ) ≤ (win.map (·.x)).sum := by
    have := hxb.1
    omega
  have hx1 : (win.map (·.x)).sum ≤ (baseW - targetWOf baseH) * (win.length : ℤ) := by
    have := hxb.2
    nlinarith
  have hy0 : -(jsRound ((baseH : ℚ) * c.safeTop)) * (win.length : ℤ) ≤
      (win.map (·.y)).sum := by
    have := hyb.1
    nlinarith
  have hy1 : (win.map (·.y)).sum ≤ jsRound ((baseH : ℚ) * c.safeBottom) *
      (win.length : ℤ) := by
    have := hyb.2
    nlinarith
  have hxq : ((0 : ℤ) : ℚ) ≤ (((win.map (·.x)).sum : ℤ) : ℚ) / (win.length : ℚ) :=
    div_nonneg (by exact_mod_cast hx0) hnq.le
  have hxq2 : (((win.map (·.x)).sum : ℤ) : ℚ) / (win.length : ℚ) ≤
      ((baseW - targetWOf baseH : ℤ) : ℚ) := by
    rw [div_le_iff hnq]
    exact_mod_cast hx1
  have hyq : ((-(jsRound ((baseH : ℚ) * c.safeTop)) : ℤ) : ℚ) ≤
      (((win.map (·.y)).sum : ℤ) : ℚ) / (win.length : ℚ) := by
    rw [le_div_iff hnq]
    exact_mod_cast hy0
  have hyq2 : (((win.map (·.y)).sum : ℤ) : ℚ) / (win.length : ℚ) ≤
      ((jsRound ((baseH : ℚ) * c.safeBottom) : ℤ) : ℚ) := by
    rw [div_le_iff hnq]
    exact_mod_cast hy1
  have hxr := jsRound_mem_Icc hxq hxq2
  have hyr := jsRound_mem_Icc hyq hyq2
  rw [hk]
  exact ⟨hki.1, hki.2.1, hxr.1, by
    have := hxr.2
    have hw := hki.1
    simp only [hw]
    omega, hyr.1, by
    have := hyr.2
    have hh := hki.2.1
    simp only [hh]
    omega⟩

theorem mkStep_bounds {baseW baseH : ℤ} {c : Constraints} {maxPan : ℚ}
    (hmp : 0 ≤ maxPan) {prev smi : CropKF}
    (hp : inCropBounds baseW baseH c prev) (hs : inCropBounds baseW baseH c smi) :
    inCropBounds baseW baseH c (mkStep maxPan prev smi) := by
  have hms : 0 ≤ jsRound (maxPan * max 0.001 (smi.t - prev.t)) :=
    jsRound_nonneg (mul_nonneg hmp (le_max_of_le_left (by norm_num)))
  have hx := stepLimit_between (a := prev.x) (b := smi.x) hms
  have hy := stepLimit_between (a := prev.y) (b := smi.y) hms
  obtain ⟨hw1, hh1, hx1, hx2, hy1, hy2⟩ := hp
  obtain ⟨hw2, hh2, hx3, hx4, hy3, hy4⟩ := hs
  rw [hw1] at hx2
  rw [hw2] at hx4
  rw [hh1] at hy2
  rw [hh2] at hy4
  refine ⟨hw2, hh2, ?_, ?_, ?_, ?_⟩ <;> simp only [mkStep, hw2, hh2] <;> omega

theorem rateLimitGo_bounds {baseW baseH : ℤ} {c : Constraints} {maxPan : ℚ}
    (hmp : 0 ≤ maxPan) :
    ∀ (l : List CropKF) (prev : CropKF), inCropBounds baseW baseH c prev →
      (∀ k ∈ l, inCropBounds baseW baseH c k) →
      ∀ k ∈ rateLimitGo maxPan prev l, inCropBounds baseW baseH c k := by
  intro l
  induction l with
  | nil => intro prev _ _ k hk; simp [rateLimitGo] at hk
  | cons s rs ih =>
      intro prev hprev hl k hk
      simp only [rateLimitGo, List.mem_cons] at hk
      have hnk := mkStep_bounds hmp hprev (hl s (List.mem_cons_self s rs))
      rcases hk with rfl | hk
      · exact hnk
      · exact ih (mkStep maxPan prev s) hnk (fun y hy => hl y (List.mem_cons_of_mem s hy)) k hk

theorem rateLimitPath_bounds {baseW baseH : ℤ} {c : Constraints} {maxPan : ℚ}
    (hmp : 0 ≤ maxPan) {sm : List CropKF}
    (hsm : ∀ k ∈ sm, inCropBounds baseW baseH c k) :
    ∀ k ∈ rateLimitPath maxPan sm, inCropBounds baseW baseH c k := by
  cases sm with
  | nil => intro k hk; simp [rateLimitPath] at hk
  | cons s rs =>
      intro k hk
      simp only [rateLimitPath, List.mem_cons] at hk
      rcases hk with rfl | hk
      · exact hsm k (List.mem_cons_self k rs)
      · exact rateLimitGo_bounds hmp rs s (hsm s (List.mem_cons_self s rs))
          (fun y hy => hsm y (List.mem_cons_of_mem s hy)) k hk

theorem jsRound_convex {p k : ℤ} {alpha : ℚ} (h0 : 0 ≤ alpha) (h1 : alpha ≤ 1) :
    min p k ≤ jsRound ((p : ℚ) + ((k : ℚ) - (p : ℚ)) * alpha) ∧
      jsRound ((p : ℚ) + ((k : ℚ) - (p : ℚ)) * alpha) ≤ max p k := by
  rcases le_total p k with h | h
  · have hcast : ((p : ℤ) : ℚ) ≤ (k : ℚ) := by exact_mod_cast h
    have hlo : ((p : ℤ) : ℚ) ≤ (p : ℚ) + ((k : ℚ) - (p : ℚ)) * alpha := by nlinarith
    have hhi : (p : ℚ) + ((k : ℚ) - (p : ℚ)) * alpha ≤ ((k : ℤ) : ℚ) := by nlinarith
    have := jsRound_mem_Icc hlo hhi
    omega
  · have hcast : ((k : ℤ) : ℚ) ≤ (p : ℚ) := by exact_mod_cast h
    have hlo : ((k : ℤ) : ℚ) ≤ (p : ℚ) + ((k : ℚ) - (p : ℚ)) * alpha := by nlinarith
    have hhi : (p : ℚ) + ((k : ℚ) - (p : ℚ)) * alpha ≤ ((p : ℤ) : ℚ) := by nlinarith
    have := jsRound_mem_Icc hlo hhi
    omega

theorem easeGo_bounds {baseW baseH : ℤ} {c : Constraints} {segStart segEnd easeS : ℚ} :
    ∀ (l : List CropKF) (p : CropKF), inCropBounds baseW baseH c p →
      (∀ k ∈ l, inCropBounds baseW baseH c k) →
      ∀ k ∈ easeGo segStart segEnd easeS p l, inCropBounds baseW baseH c k := by
  intro l
  induction l with
  | nil => intro p _ _ k hk; simp [easeGo] at hk
  | cons s rs ih =>
      intro p hp hl k hk
      simp only [easeGo, List.mem_cons] at hk
      have hks := hl s (List.mem_cons_self s rs)
      set alpha := min (min 1 (max 0 ((s.t - segStart) / easeS)))
        (min 1 (max 0 ((segEnd - s.t) / easeS))) with halpha
      have h0 : 0 ≤ alpha :=
        le_min (le_min (by norm_num) (le_max_left 0 _)) (le_min (by norm_num) (le_max_left 0 _))
      have h1 : alpha ≤ 1 := (min_le_left _ _).trans (min_le_left 1 _)
      have hcx := jsRound_convex (p := p.x) (k := s.x) h0 h1
      have hcy := jsRound_convex (p := p.y) (k := s.y) h0 h1
      obtain ⟨hw1, hh1, hx1, hx2, hy1, hy2⟩ := hp
      obtain ⟨hw2, hh2, hx3, hx4, hy3, hy4⟩ := hks
      have hnk : inCropBounds baseW baseH c
          ⟨s.t, jsRound ((p.x : ℚ) + ((s.x : ℚ) - (p.x : ℚ)) * alpha),
            jsRound ((p.y : ℚ) + ((s.y : ℚ) - (p.y : ℚ)) * alpha), s.w, s.h⟩ := by
        refine ⟨hw2, hh2, ?_, ?_, ?_, ?_⟩ <;> simp only
        · omega
        · rw [hw2] at hx4 ⊢
          rw [hw1] at hx2
          omega
        · omega
        · rw [hh2] at hy4 ⊢
          rw [hh1] at hy2
          omega
      rcases hk with rfl | hk
      · exact hnk
      · exact ih _ hnk (fun y hy => hl y (List.mem_cons_of_mem s hy)) k hk

theorem easeSpeakerEdges_bounds {baseW baseH : ℤ} {c : Constraints}
    {segStart segEnd easeS : ℚ} {kf : List CropKF}
    (hkf : ∀ k ∈ kf, inCropBounds baseW baseH c k) :
    ∀ k ∈ easeSpeakerEdges kf segStart segEnd easeS, inCropBounds baseW baseH c k := by
  unfold easeSpeakerEdges
  split_ifs with h
  · exact hkf
  · cases kf with
    | nil => intro k hk; simp at hk
    | cons k0 rest =>
        intro k hk
        simp only [List.mem_cons] at hk
        rcases hk with rfl | hk
        · exact hkf k (List.mem_cons_self k rest)
        · exact easeGo_bounds rest k0 (hkf k0 (List.mem_cons_self k0 rest))
            (fun y hy => hkf y (List.mem_cons_of_mem k0 hy)) k hk

theorem smoothAndConstrain_bounds {baseW baseH : ℤ} {c : Constraints}
    {segStart segEnd : ℚ} {kf : List CropKF} (hmp : 0 ≤ c.maxPan)
    (hkf : ∀ k ∈ kf, inCropBounds baseW baseH c k) :
    ∀ k ∈ smoothAndConstrain kf baseW baseH segStart segEnd c,
      inCropBounds baseW baseH c k := by
  unfold smoothAndConstrain
  simp only
  split_ifs with h
  · exact hkf
  · exact easeSpeakerEdges_bounds (rateLimitPath_bounds hmp (mem_smoothPath_bounds hkf))

theorem mem_dedupeGo {minDelta : ℚ} :
    ∀ {l : List CropKF} {prev k : CropKF}, k ∈ dedupeGo minDelta prev l → k ∈ l := by
  intro l
  induction l with
  | nil => intro prev k hk; simp [dedupeGo] at hk
  | cons a rest ih =>
      intro prev k hk
      unfold dedupeGo at hk
      split_ifs at hk with h
      · rcases List.mem_cons.mp hk with rfl | hm
        · exact List.mem_cons_self _ _
        · exact List.mem_cons_of_mem a (ih hm)
      · exact List.mem_cons_of_mem a (ih hk)

theorem mem_dedupeByTime {kf : List CropKF} {minDelta : ℚ} {k : CropKF}
    (hk : k ∈ dedupeByTime kf minDelta) : k ∈ kf := by
  cases kf with
  | nil => simp [dedupeByTime] at hk
  | cons a rest =>
      unfold dedupeByTime at hk
      rcases List.mem_cons.mp hk with rfl | hm
      · exact List.mem_cons_self _ _
      · exact List.mem_cons_of_mem a (mem_dedupeGo hm)

theorem mem_boxesInWindow {mStart mEnd : ℚ} :
    ∀ {l : List FaceBox} {b : FaceBox}, b ∈ boxesInWindow mStart mEnd l →
      b ∈ l ∧ mStart ≤ b.t ∧ b.t ≤ mEnd := by
  intro l
  induction l with
  | nil => intro b hb; simp [boxesInWindow] at hb
  | cons a rest ih =>
      intro b hb
      unfold boxesInWindow at hb
      split_ifs at hb with h1 h2
      · obtain ⟨hm, hs, he⟩ := ih hb
        exact ⟨List.mem_cons_of_mem a hm, hs, he⟩
      · simp at hb
      · rcases List.mem_cons.mp hb with rfl | hm
        · exact ⟨List.mem_cons_self _ _, le_of_not_lt h1, le_of_not_lt h2⟩
        · obtain ⟨hm2, hs, he⟩ := ih hm
          exact ⟨List.mem_cons_of_mem a hm2, hs, he⟩

theorem buildKeyframes_bounds (mapping : List MapWin) (tracks : List FaceTrack)
    {baseW baseH : ℤ} {c : Constraints} (hH : 0 ≤ baseH) (hW : targetWOf baseH ≤ baseW)
    (hst : 0 ≤ c.safeTop) (hsb : 0 ≤ c.safeBottom) :
    ∀ k ∈ buildKeyframes mapping tracks baseW baseH c, inCropBounds baseW baseH c k := by
  intro k hk
  unfold buildKeyframes at hk
  have hk2 := mem_dedupeByTime hk
  rcases List.mem_flatMap.mp hk2 with ⟨m, hm, hkm⟩
  cases hfind : tracks.find? (fun t => t.id = m.trackId) with
  | none => rw [hfind] at hkm; simp at hkm
  | some tr =>
      rw [hfind] at hkm
      rcases List.mem_map.mp hkm with ⟨b, hb, hkb⟩
      rw [← hkb]
      exact kfOfBox_inCropBounds tracks baseW baseH c b hH hW hst hsb

end Framing

/-- C4: the bounding invariant as stated (`0 <= y <= sourceHeight - h`) fails for
nonzero safe zones; the invariant the code maintains, at the raw `buildKeyframes`
stage, through `smoothAndConstrain`, and on every keyframe of a non-null
`computeCropMap` result, is `w = floor(baseH*9/16)`, `h = baseH`,
`0 <= x <= baseW - w`, and `-round(baseH*safeTop) <= y <= baseH - h +
round(baseH*safeBottom)` — which coincides with the claimed bound exactly when
the safe-zone fractions are zero. -/
theorem C4_bounding_amended (transcript : List Framing.FTranscriptWord)
    (tracks : List Framing.FaceTrack) (baseW baseH : ℤ) (segStart segEnd : ℚ)
    (c : Framing.Constraints) (out : List Framing.CropKF)
    (hH : 0 ≤ baseH) (hW : Framing.targetWOf baseH ≤ baseW)
    (hst : 0 ≤ c.safeTop) (hsb : 0 ≤ c.safeBottom) (hmp : 0 ≤ c.maxPan)
    (hout : Framing.computeCropMapPure transcript tracks baseW baseH segStart segEnd c
      = some out) :
    (∀ k ∈ Framing.buildKeyframes (Framing.mapSpeakersToTracks
        (Framing.buildSpeakerTimeline transcript segStart segEnd) tracks) tracks baseW baseH c,
      Framing.inCropBounds baseW baseH c k) ∧
    ∀ k ∈ out, Framing.inCropBounds baseW baseH c k := by
  have hraw := Framing.buildKeyframes_bounds
    (Framing.mapSpeakersToTracks
      (Framing.buildSpeakerTimeline transcript segStart segEnd) tracks)
    tracks hH hW hst hsb
  refine ⟨hraw, ?_⟩
  simp only [Framing.computeCropMapPure] at hout
  split_ifs at hout with h1 h2 h3 h4
  all_goals first
  | (intro k hk
     rw [← Option.some.inj hout] at hk
     exact Framing.smoothAndConstrain_bounds hmp hraw k hk)
  | simp at hout

/-- Witness for the C4 amended theorem: the concrete top-of-frame input with
safe-top fraction 0.05 satisfies every hypothesis, and its first output
keyframe (whose `y = -54` falls below zero) lies inside the amended bounds. -/
theorem C4_bounding_witness :
    Framing.inCropBounds 1920 1080 framingConsB
      (((Framing.computeCropMapPure framingWordsB [framingTrackB] 1920 1080 0 2
          framingConsB).getD []).getD 0 Framing.zeroKF) :=
  (C4_bounding_amended framingWordsB [framingTrackB] 1920 1080 0 2 framingConsB
      ((Framing.computeCropMapPure framingWordsB [framingTrackB] 1920 1080 0 2
          framingConsB).getD [])
      (by decide) (by decide) (by decide) (by decide) (by decide) (by decide)).2
    _ (by decide)

namespace Framing

theorem computeGroupBounds_single (tr : FaceTrack) (time baseW baseH : ℚ) :
    computeGroupBounds [tr] time baseW baseH = none := by
  unfold computeGroupBounds
  simp only [List.foldl_cons, List.foldl_nil]
  rcases hfb : findBoxNearTime tr.boxes time (max 0.1 getSampleStepSeconds) with _ | cand
  · rfl
  · simp

theorem enforceGroupBounds_none_int (n : ℤ) (tW bW : ℚ) (h0 : 0 ≤ n)
    (hn : ((n : ℤ) : ℚ) ≤ max 0 (bW - tW)) :
    enforceGroupBounds ((n : ℤ) : ℚ) tW bW none = ((n : ℤ) : ℚ) := by
  have h0q : (0 : ℚ) ≤ ((n : ℤ) : ℚ) := by exact_mod_cast h0
  unfold enforceGroupBounds clamp
  simp only
  rw [if_neg (not_lt.mpr h0q), if_neg (not_lt.mpr hn), if_pos (Rat.den_intCast n),
    jsRound_intCast]

theorem intMarginClamp_mem {m cx : ℚ} {tW bW : ℤ} (x0 : ℤ) (hm : 0 < m)
    (hab : max 0 ⌈cx - ((tW : ℤ) : ℚ) + m⌉ ≤ min (max 0 (bW - tW)) ⌊cx - m⌋) :
    max 0 ⌈cx - ((tW : ℤ) : ℚ) + m⌉ ≤ intMarginClamp m cx tW bW x0 ∧
      intMarginClamp m cx tW bW x0 ≤ min (max 0 (bW - tW)) ⌊cx - m⌋ := by
  unfold intMarginClamp
  simp only
  rw [if_pos hm, if_pos hab]
  split_ifs <;> omega

theorem kfX_margin (tr : FaceTrack) (baseW baseH : ℤ) (c : Constraints) (b : FaceBox)
    (hm : 0 < marginPxOf baseH c) (hf : marginFeasible baseW baseH c b) :
    marginPxOf baseH c ≤ centerXOf baseW baseH c b - ((kfX [tr] baseW baseH c b : ℤ) : ℚ) ∧
    marginPxOf baseH c ≤ ((kfX [tr] baseW baseH c b : ℤ) : ℚ)
      + ((targetWOf baseH : ℤ) : ℚ) - centerXOf baseW baseH c b := by
  unfold marginFeasible at hf
  unfold marginPxOf at hm hf ⊢
  unfold centerXOf at hf ⊢
  obtain ⟨h1, h2⟩ := intMarginClamp_mem (kfX0 [tr] baseW baseH c b) hm hf
  unfold kfX
  simp only [computeGroupBounds_single]
  generalize hgen : intMarginClamp (max 0 c.margin * ((targetWOf baseH : ℤ) : ℚ))
      ((subjectCenter b ((baseW : ℤ) : ℚ) ((baseH : ℤ) : ℚ) c ((baseH : ℤ) : ℚ)).1)
      (targetWOf baseH) baseW (kfX0 [tr] baseW baseH c b) = x1 at h1 h2 ⊢
  have h0 : 0 ≤ x1 := le_trans (le_max_left _ _) h1
  have hub : x1 ≤ max 0 (baseW - targetWOf baseH) := le_trans h2 (min_le_left _ _)
  have hubq : ((x1 : ℤ) : ℚ) ≤ max 0 (((baseW : ℤ) : ℚ) - ((targetWOf baseH : ℤ) : ℚ)) := by
    exact_mod_cast hub
  rw [enforceGroupBounds_none_int x1 _ _ h0 hubq, jsRound_intCast]
  have hx3 : max 0 (min x1 (max 0 (baseW - targetWOf baseH))) = x1 := by omega
  rw [hx3]
  constructor
  · have hfl : x1 ≤ ⌊(subjectCenter b ((baseW : ℤ) : ℚ) ((baseH : ℤ) : ℚ) c
        ((baseH : ℤ) : ℚ)).1 - max 0 c.margin * ((targetWOf baseH : ℤ) : ℚ)⌋ :=
      le_trans h2 (min_le_right _ _)
    have hq : ((x1 : ℤ) : ℚ) ≤ (subjectCenter b ((baseW : ℤ) : ℚ) ((baseH : ℤ) : ℚ) c
        ((baseH : ℤ) : ℚ)).1 - max 0 c.margin * ((targetWOf baseH : ℤ) : ℚ) :=
      le_trans (by exact_mod_cast hfl) (Int.floor_le _)
    linarith
  · have hcl : ⌈(subjectCenter b ((baseW : ℤ) : ℚ) ((baseH : ℤ) : ℚ) c
        ((baseH : ℤ) : ℚ)).1 - ((targetWOf baseH : ℤ) : ℚ)
        + max 0 c.margin * ((targetWOf baseH : ℤ) : ℚ)⌉ ≤ x1 :=
      le_trans (le_max_right _ _) h1
    have hq : (subjectCenter b ((baseW : ℤ) : ℚ) ((baseH : ℤ) : ℚ) c
        ((baseH : ℤ) : ℚ)).1 - ((targetWOf baseH : ℤ) : ℚ)
        + max 0 c.margin * ((targetWOf baseH : ℤ) : ℚ) ≤ ((x1 : ℤ) : ℚ) :=
      le_trans (Int.le_ceil _) (by exact_mod_cast hcl)
    linarith

theorem kfOfBox_t (tracks : List FaceTrack) (baseW baseH : ℤ) (c : Constraints)
    (b : FaceBox) : (kfOfBox tracks baseW baseH c b).t = b.t := rfl

theorem mem_buildKeyframes {mapping : List MapWin} {tracks : List FaceTrack}
    {baseW baseH : ℤ} {c : Constraints} {k : CropKF}
    (hk : k ∈ buildKeyframes mapping tracks baseW baseH c) :
    ∃ tr ∈ tracks, ∃ b ∈ tr.boxes, k = kfOfBox tracks baseW baseH c b := by
  unfold buildKeyframes at hk
  have hk2 := mem_dedupeByTime hk
  rcases List.mem_flatMap.mp hk2 with ⟨mw, hmw, hkm⟩
  rcases hfind : tracks.find? (fun t => t.id = mw.trackId) with _ | tr
  · rw [hfind] at hkm; simp at hkm
  · rw [hfind] at hkm
    rcases List.mem_map.mp hkm with ⟨b, hb, hkb⟩
    exact ⟨tr, List.mem_of_find?_eq_some hfind, b, (mem_boxesInWindow hb).1, hkb.symm⟩

end Framing

/-- C3: the margin guarantee fails for final `computeCropMap` keyframes (the
smoothing, rate-limiting and easing stages can move a keyframe far from its
subject); the corrected statement holds at the raw `buildKeyframes` stage for a
single-track mapping: every raw keyframe comes from a face box at its
timestamp, and whenever the rounded margin window for that box is feasible the
subject center keeps the full `marginPx` distance to both vertical crop edges,
with no `ε` slack needed. -/
theorem C3_margin_amended (tr : Framing.FaceTrack) (mapping : List Framing.MapWin)
    (baseW baseH : ℤ) (c : Framing.Constraints) (k : Framing.CropKF)
    (hk : k ∈ Framing.buildKeyframes mapping [tr] baseW baseH c)
    (hm : 0 < Framing.marginPxOf baseH c) :
    ∃ b ∈ tr.boxes, b.t = k.t ∧
      (Framing.marginFeasible baseW baseH c b →
        Framing.marginPxOf baseH c ≤
          Framing.centerXOf baseW baseH c b - ((k.x : ℤ) : ℚ) ∧
        Framing.marginPxOf baseH c ≤
          ((k.x : ℤ) : ℚ) + ((k.w : ℤ) : ℚ) - Framing.centerXOf baseW baseH c b) := by
  rcases Framing.mem_buildKeyframes hk with ⟨tr2, htr2, b, hb, hkb⟩
  have htr : tr2 = tr := by simpa using htr2
  rw [htr] at hb
  refine ⟨b, hb, by rw [hkb, Framing.kfOfBox_t], fun hf => ?_⟩
  rw [hkb]
  exact Framing.kfX_margin tr baseW baseH c b hm hf

/-- Witness for the C3 amended theorem at a static single-track input centered
at `cx = 960` in a 1920×1080 frame: the margin window is feasible for the first
box, and the theorem certifies both margins for the first raw keyframe
(`x = 657`, margins `303` and `304` pixels against the required `60.7`). -/
theorem C3_margin_witness :
    Framing.marginFeasible 1920 1080 framingConsA
      (framingTrackD.boxes.headD ⟨0, 0, 0, 0, 0, none⟩) ∧
    ∃ b ∈ framingTrackD.boxes,
      b.t = ((Framing.buildKeyframes framingMapD [framingTrackD] 1920 1080
          framingConsA).headD Framing.zeroKF).t ∧
      (Framing.marginFeasible 1920 1080 framingConsA b →
        Framing.marginPxOf 1080 framingConsA ≤
          Framing.centerXOf 1920 1080 framingConsA b
          - ((((Framing.buildKeyframes framingMapD [framingTrackD] 1920 1080
              framingConsA).headD Framing.zeroKF).x : ℤ) : ℚ) ∧
        Framing.marginPxOf 1080 framingConsA ≤
          ((((Framing.buildKeyframes framingMapD [framingTrackD] 1920 1080
              framingConsA).headD Framing.zeroKF).x : ℤ) : ℚ)
          + ((((Framing.buildKeyframes framingMapD [framingTrackD] 1920 1080
              framingConsA).headD Framing.zeroKF).w : ℤ) : ℚ)
          - Framing.centerXOf 1920 1080 framingConsA b) :=
  ⟨by decide,
    C3_margin_amended framingTrackD framingMapD 1920 1080 framingConsA
      ((Framing.buildKeyframes framingMapD [framingTrackD] 1920 1080
        framingConsA).headD Framing.zeroKF) (by decide) (by decide)⟩

theorem getLastD_eq_getD {α : Type} :
    ∀ (l : List α) (d : α), l.getLastD d = l.getD (l.length - 1) d := by
  intro l
  induction l with
  | nil => intro d; rfl
  | cons a t ih =>
      intro d
      cases t with
      | nil => rfl
      | cons b t2 =>
          rw [List.getLastD_cons, ih a]
          simp [List.getD]

theorem headD_eq_getD {α : Type} (l : List α) (d : α) : l.headD d = l.getD 0 d := by
  cases l <;> rfl

theorem findIdx?_spec {α : Type} (p : α → Bool) (d : α) :
    ∀ (l : List α) (s i : Nat), List.findIdx? p l s = some i →
      s ≤ i ∧ i - s < l.length ∧ p (l.getD (i - s) d) = true ∧
        ∀ j, j < i - s → p (l.getD j d) = false := by
  intro l
  induction l with
  | nil => intro s i h; rw [List.findIdx?_nil] at h; exact absurd h (by simp)
  | cons a t ih =>
      intro s i h
      rw [List.findIdx?_cons] at h
      by_cases hp : p a
      · rw [if_pos hp] at h
        have : s = i := by simpa using h
        subst this
        refine ⟨le_refl s, by simp, by simpa using hp, fun j hj => absurd hj (by omega)⟩
      · rw [if_neg hp] at h
        obtain ⟨h1, h2, h3, h4⟩ := ih (s + 1) i h
        refine ⟨by omega, by simp; omega, ?_, ?_⟩
        · have : i - s = (i - (s + 1)) + 1 := by omega
          rw [this]
          simpa using h3
        · intro j hj
          cases j with
          | zero => simpa using hp
          | succ j2 =>
              have : j2 < i - (s + 1) := by omega
              simpa using h4 j2 this

theorem findIdx?_none_spec {α : Type} (p : α → Bool) :
    ∀ (l : List α) (s : Nat), List.findIdx? p l s = none → ∀ x ∈ l, p x = false := by
  intro l
  induction l with
  | nil => intro s _ x hx; simp at hx
  | cons a t ih =>
      intro s h x hx
      rw [List.findIdx?_cons] at h
      by_cases hp : p a
      · rw [if_pos hp] at h; exact absurd h (by simp)
      · rw [if_neg hp] at h
        rcases List.mem_cons.mp hx with rfl | hx2
        · simpa using hp
        · exact ih (s + 1) h x hx2

theorem getD_drop {α : Type} (l : List α) (d : α) (n m : Nat) :
    (l.drop n).getD m d = l.getD (n + m) d := by
  rw [List.getD_eq_getElem?_getD, List.getD_eq_getElem?_getD, List.getElem?_drop]

theorem prefix_cons_cons {α : Type} (a : α) {p q : List α} (h : p <+: q) :
    a :: p <+: a :: q := by
  rcases h with ⟨t, ht⟩
  exact ⟨t, by simp [ht]⟩

theorem infix_cons_of_infix {α : Type} (a : α) {p q : List α} (h : p <:+: q) :
    p <:+: a :: q := by
  rcases h with ⟨s, t, ht⟩
  exact ⟨a :: s, t, by simp [← ht]⟩

namespace SegV2

theorem endSec_mono {words : List TranscriptWord}
    (hchron : words.Pairwise (fun a b => a.endSec ≤ b.start))
    (hwf : ∀ w ∈ words, w.start ≤ w.endSec) :
    ∀ i j, i ≤ j → j < words.length →
      (words.getD i dummyWord).endSec ≤ (words.getD j dummyWord).endSec := by
  intro i j hij hj
  rcases Nat.eq_or_lt_of_le hij with rfl | hlt
  · exact le_refl _
  · have hi : i < words.length := lt_trans hlt hj
    rw [List.getD_eq_getElem words dummyWord hi, List.getD_eq_getElem words dummyWord hj]
    exact le_trans (List.pairwise_iff_getElem.mp hchron i j hi hj hlt)
      (hwf _ (List.getElem_mem hj))

theorem findCutGo_spec (searchEnd minEnd : ℚ) (cutoff : Nat) :
    ∀ (l : List TranscriptWord) (i : Nat),
      findCutGo searchEnd minEnd cutoff i l = cutoff ∨
      (i ≤ findCutGo searchEnd minEnd cutoff i l ∧
       findCutGo searchEnd minEnd cutoff i l - i < l.length ∧
       (l.getD (findCutGo searchEnd minEnd cutoff i l - i) dummyWord).endSec ≤ searchEnd) := by
  intro l
  induction l with
  | nil => intro i; left; rfl
  | cons w rest ih =>
      intro i
      unfold findCutGo
      by_cases h1 : w.endSec > searchEnd
      · rw [if_pos h1]; left; rfl
      · rw [if_neg h1]
        by_cases h2 : isSentenceCut w
        · rw [if_pos h2]; right
          exact ⟨le_refl i, by simp, by simpa using not_lt.mp h1⟩
        · rw [if_neg h2]
          cases rest with
          | nil => left; rfl
          | cons nxt rest2 =>
              dsimp only
              split_ifs with h3
              · right
                exact ⟨le_refl i, by simp, by simpa using not_lt.mp h1⟩
              · rcases ih (i + 1) with hcut | ⟨ha, hb, hc⟩
                · left; exact hcut
                · right
                  refine ⟨by omega, ?_, ?_⟩
                  · simp only [List.length_cons] at hb ⊢
                    omega
                  · have hidx : findCutGo searchEnd minEnd cutoff (i + 1) (nxt :: rest2) - i
                        = (findCutGo searchEnd minEnd cutoff (i + 1) (nxt :: rest2) - (i + 1)) + 1 := by
                      omega
                    rw [hidx]
                    simpa using hc

theorem choiceShortLemma (t : ℚ) (b2 : DurationChoice) :
    (if t ≥ 70 then DurationChoice.long60
     else if t ≥ 42 && b2 = DurationChoice.short30 then DurationChoice.mid45
     else b2) = DurationChoice.short30 → t < 42 := by
  split_ifs with h1 h2
  · intro h; exact absurd h (by simp)
  · intro h; exact absurd h (by simp)
  · intro h3
    simp only [Bool.and_eq_true, decide_eq_true_eq] at h2
    rcases not_and_or.mp h2 with h | h
    · linarith [not_le.mp h]
    · exact absurd h3 h

theorem choiceMidLemma (t : ℚ) (b2 : DurationChoice) :
    (if t ≥ 70 then DurationChoice.long60
     else if t ≥ 42 && b2 = DurationChoice.short30 then DurationChoice.mid45
     else b2) = DurationChoice.mid45 → t < 70 := by
  split_ifs with h1 h2
  · intro h; exact absurd h (by simp)
  · intro _; exact not_le.mp h1
  · intro _; exact not_le.mp h1

theorem chooseDuration_bounds (features : SegmentFeatures) (cd : ℚ) :
    20 ≤ (chooseDuration features cd).1 ∧
    ((chooseDuration features cd).2 = DurationChoice.short30 →
      (chooseDuration features cd).1 < 42) ∧
    ((chooseDuration features cd).2 = DurationChoice.mid45 →
      (chooseDuration features cd).1 < 70) := by
  unfold chooseDuration
  simp only
  refine ⟨le_trans ?_ (le_max_left _ _), choiceShortLemma _ _, choiceMidLemma _ _⟩
  split_ifs <;> norm_num

end SegV2

namespace SegV2

theorem filter_lt_front (hi : ℚ) :
    ∀ (l : List TranscriptWord), l.Pairwise (fun a b => a.start ≤ b.start) →
      l.filter (fun x => decide (x.start < hi)) <+: l := by
  intro l
  induction l with
  | nil => intro _; simp
  | cons a t ih =>
      intro hp
      obtain ⟨hhead, htail⟩ := List.pairwise_cons.mp hp
      rw [List.filter_cons]
      split_ifs with ha
  
      · exact prefix_cons_cons a (ih htail)
      · have hnil : t.filter (fun x => decide (x.start < hi)) = [] := by
          apply List.filter_eq_nil_iff.mpr
          intro x hx
          simp only [decide_eq_true_eq] at ha ⊢
          intro hcontra
          exact ha (lt_of_le_of_lt (hhead x hx) hcontra)
        rw [hnil]
        exact List.nil_prefix

theorem filter_window_infix (lo hi : ℚ) :
    ∀ (l : List TranscriptWord), l.Pairwise (fun a b => a.start ≤ b.start) →
      l.filter (fun x => x.start ≥ lo && x.start < hi) <:+: l := by
  intro l
  induction l with
  | nil => intro _; simp
  | cons a t ih =>
      intro hp
      obtain ⟨hhead, htail⟩ := List.pairwise_cons.mp hp
      rw [List.filter_cons]
      split_ifs with ha
      · simp only [Bool.and_eq_true, decide_eq_true_eq, ge_iff_le] at ha
        have hcongr : t.filter (fun x => x.start ≥ lo && x.start < hi)
            = t.filter (fun x => decide (x.start < hi)) := by
          apply List.filter_congr
          intro x hx
          have hlo : lo ≤ x.start := le_trans ha.1 (hhead x hx)
          simp [hlo]
        rw [hcongr]
        exact (prefix_cons_cons a (filter_lt_front hi t htail)).isInfix
      · exact infix_cons_of_infix a (ih htail)

end SegV2


namespace SegV2

theorem adjust_bounds (words : List TranscriptWord) (startSec hardEndSec targetDuration : ℚ)
    (hne : words ≠ [])
    (hstart : (words.headD dummyWord).start = startSec)
    (hhard : (words.getLastD dummyWord).endSec = hardEndSec)
    (hdur20 : startSec + 20 ≤ hardEndSec)
    (ht20 : 20 ≤ targetDuration)
    (hchron : words.Pairwise (fun a b => a.endSec ≤ b.start))
    (hwf : ∀ w ∈ words, w.start ≤ w.endSec)
    (hspan : ∀ w ∈ words, w.endSec ≤ w.start + 2)
    (hgap : words.Chain' (fun a b => b.start ≤ a.endSec + 4)) :
    startSec + 20 ≤ (adjustSegmentToNarrativeBoundary words startSec hardEndSec targetDuration).2 ∧
    (adjustSegmentToNarrativeBoundary words startSec hardEndSec targetDuration).2 ≤ startSec + 82 ∧
    (adjustSegmentToNarrativeBoundary words startSec hardEndSec targetDuration).2
      ≤ startSec + targetDuration + 6 := by
  have hlen : 0 < words.length := List.length_pos.mpr hne
  have hmax20 : startSec + 20 ≤ min hardEndSec (startSec + 82) := le_min hdur20 (by linarith)
  have hdE20 : startSec + 20 ≤ min (min hardEndSec (startSec + 82)) (startSec + targetDuration) :=
    le_min hmax20 (by linarith)
  unfold adjustSegmentToNarrativeBoundary
  rw [if_neg (by simpa [List.isEmpty_iff] using hne)]
  dsimp only
  rcases hidx : words.findIdx? (fun w => decide (w.endSec ≥
      min (min hardEndSec (startSec + 82)) (startSec + targetDuration))) with _ | i
  · exfalso
    have hlast := findIdx?_none_spec _ words 0 hidx (words.getLastD dummyWord)
      (by rw [getLastD_eq_getD]; exact getD_mem dummyWord (by omega))
    rw [hhard] at hlast
    simp only [decide_eq_false_iff_not, not_le, ge_iff_le] at hlast
    have hle : min (min hardEndSec (startSec + 82)) (startSec + targetDuration) ≤ hardEndSec :=
      le_trans (min_le_left _ _) (min_le_left _ _)
    linarith
  · rw [hidx]
    dsimp only
    obtain ⟨-, hilen, hiP, hifirst⟩ := findIdx?_spec _ dummyWord words 0 i hidx
    simp only [Nat.sub_zero] at hilen hiP hifirst
    simp only [decide_eq_true_eq, ge_iff_le] at hiP
    have hcutB : (words.getD i dummyWord).endSec ≤ startSec + targetDuration + 6 := by
      rcases Nat.eq_zero_or_pos i with rfl | hipos
      · have hmem0 : words.getD 0 dummyWord ∈ words := getD_mem dummyWord hlen
        have hsp := hspan _ hmem0
        have hst0 : (words.getD 0 dummyWord).start = startSec := by
          rw [← headD_eq_getD]; exact hstart
        linarith
      · obtain ⟨j, rfl⟩ : ∃ j, i = j + 1 := ⟨i - 1, by omega⟩
        have hprev := hifirst j (by omega)
        simp only [decide_eq_false_iff_not, not_le, ge_iff_le] at hprev
        have hgapi := List.chain'_iff_get.mp hgap j (by omega)
        simp only [List.get_eq_getElem] at hgapi
        have hspi := hspan (words.getD (j + 1) dummyWord) (getD_mem dummyWord hilen)
        rw [List.getD_eq_getElem words dummyWord hilen] at hspi ⊢
        rw [List.getD_eq_getElem words dummyWord (by omega : j < words.length)] at hprev
        have hdEle : min (min hardEndSec (startSec + 82)) (startSec + targetDuration)
            ≤ startSec + targetDuration := min_le_right _ _
        linarith
    have hspec := findCutGo_spec (min (min hardEndSec (startSec + 82))
        (startSec + targetDuration + 6))
        (min (min hardEndSec (startSec + 82)) (startSec + max 18 (targetDuration - 4)))
        i (words.drop i) i
    set F := findCutGo (min (min hardEndSec (startSec + 82)) (startSec + targetDuration + 6))
        (min (min hardEndSec (startSec + 82)) (startSec + max 18 (targetDuration - 4)))
        i i (words.drop i) with hFdef
    have hkey : F < words.length ∧
        min (min hardEndSec (startSec + 82)) (startSec + targetDuration)
          ≤ (words.getD F dummyWord).endSec ∧
        (words.getD F dummyWord).endSec ≤ startSec + targetDuration + 6 := by
      rcases hspec with hc0 | ⟨hc0a, hc0b, hc0c⟩
      · rw [hc0]; exact ⟨hilen, hiP, hcutB⟩
      · rw [List.length_drop] at hc0b
        rw [getD_drop] at hc0c
        have hii : i + (F - i) = F := by omega
        rw [hii] at hc0c
        exact ⟨by omega, le_trans hiP (endSec_mono hchron hwf i F hc0a (by omega)),
          le_trans hc0c (min_le_right _ _)⟩
    obtain ⟨hcLen, hcLow, hcHigh⟩ := hkey
    have hA : ¬((words.getD F dummyWord).endSec - startSec < 18) := by
      have := le_trans hdE20 hcLow
      linarith
    have hcond : ¬((decide ((words.getD F dummyWord).endSec - startSec < 18) &&
        decide ((words.getLastD dummyWord).endSec - startSec ≥ 18)) = true) := by
      simp only [Bool.and_eq_true, decide_eq_true_eq, not_and]
      intro hcontra
      exact absurd hcontra hA
    rw [if_neg hcond]
    exact ⟨le_min hmax20 (le_trans hdE20 hcLow),
      le_trans (min_le_left _ _) (min_le_right _ _),
      le_trans (min_le_right _ _) hcHigh⟩

end SegV2

/-- C2: the tier-ceiling reading of the claim is false (refuted by
`C2_short_tier_counterexample`: a `short30` segment of 41.1s exceeds 32+6,
because `chooseDuration` can label any target below 42s as `short30`); the
bounds the code guarantees, for any transcript whose flattened word list is
chronological (words ordered, non-degenerate), has word spans of at most 2s and
inter-word gaps of at most 4s, are: every returned segment has
`20 ≤ durationSec ≤ 82`, a `short30` segment has `durationSec < 42 + 6`, and a
`mid45` segment has `durationSec < 70 + 6` (refined duration never exceeds its
tier's actual target ceiling by more than the +6s refinement search window). -/
theorem C2_duration_bounds_amended (transcript : List SegV2.TranscriptSegment)
    (sceneChanges : List SegV2.SceneChange) (chapters : List SegV2.Chapter)
    (videoDuration : ℚ) (commentHotspots : List ℚ) (seg : SegV2.EnhancedSegment)
    (hmem : seg ∈ SegV2.detectEnhancedSegments transcript sceneChanges chapters
      videoDuration commentHotspots)
    (hchron : ((transcript.map (·.words)).flatten).Pairwise
      (fun a b => a.endSec ≤ b.start))
    (hstarts : ((transcript.map (·.words)).flatten).Pairwise
      (fun a b => a.start ≤ b.start))
    (hwf : ∀ w ∈ (transcript.map (·.words)).flatten, w.start ≤ w.endSec)
    (hspan : ∀ w ∈ (transcript.map (·.words)).flatten, w.endSec ≤ w.start + 2)
    (hgap : ((transcript.map (·.words)).flatten).Chain'
      (fun a b => b.start ≤ a.endSec + 4)) :
    20 ≤ seg.durationSec ∧ seg.durationSec ≤ 82 ∧
    (seg.durationChoice = SegV2.DurationChoice.short30 → seg.durationSec < 42 + 6) ∧
    (seg.durationChoice = SegV2.DurationChoice.mid45 → seg.durationSec < 70 + 6) := by
  obtain ⟨hcand, -⟩ := SegV2.mem_detect hmem
  obtain ⟨w, hw, bi, bj, hbc⟩ := SegV2.mem_candidatesOf hcand
  obtain ⟨h8, hd20, hd82, hsegstart, hlet⟩ := SegV2.buildCandidate_fields hbc
  obtain ⟨hend, hdurEq, hchoiceEq, hwords, hfeat, hscore⟩ := hlet
  set windowWords := (((transcript.map (·.words)).flatten).filter
    (fun t => t.start ≥ w.start && t.start < w.endSec)) with hWW
  set segWords := (windowWords.drop bi).take (bj - bi) with hSW
  have hsubW : windowWords.Sublist ((transcript.map (·.words)).flatten) :=
    List.filter_sublist _
  have hsubS : segWords.Sublist windowWords :=
    (List.take_sublist _ _).trans (List.drop_sublist _ _)
  have hsub : segWords.Sublist ((transcript.map (·.words)).flatten) := hsubS.trans hsubW
  have hinfW : windowWords <:+: ((transcript.map (·.words)).flatten) :=
    SegV2.filter_window_infix w.start w.endSec _ hstarts
  have hinfS : segWords <:+: windowWords :=
    (List.take_prefix _ _).isInfix.trans (List.drop_suffix _ _).isInfix
  have hinf : segWords <:+: ((transcript.map (·.words)).flatten) := hinfS.trans hinfW
  have hchronS := List.Pairwise.sublist hsub hchron
  have hwfS : ∀ x ∈ segWords, x.start ≤ x.endSec := fun x hx => hwf x (hsub.subset hx)
  have hspanS : ∀ x ∈ segWords, x.endSec ≤ x.start + 2 := fun x hx => hspan x (hsub.subset hx)
  have hgapS := List.Chain'.infix hgap hinf
  have hneS : segWords ≠ [] := by
    intro hnil
    rw [hnil] at h8
    simp at h8
  have hdur20' : (segWords.headD SegV2.dummyWord).start + 20 ≤
      (segWords.getLastD SegV2.dummyWord).endSec := by linarith
  have hcd := SegV2.chooseDuration_bounds
    (SegV2.calculateSegmentFeatures segWords (segWords.headD SegV2.dummyWord).start
      (segWords.getLastD SegV2.dummyWord).endSec sceneChanges commentHotspots)
    ((segWords.getLastD SegV2.dummyWord).endSec - (segWords.headD SegV2.dummyWord).start)
  have hadj := SegV2.adjust_bounds segWords (segWords.headD SegV2.dummyWord).start
    (segWords.getLastD SegV2.dummyWord).endSec
    (SegV2.chooseDuration
      (SegV2.calculateSegmentFeatures segWords (segWords.headD SegV2.dummyWord).start
        (segWords.getLastD SegV2.dummyWord).endSec sceneChanges commentHotspots)
      ((segWords.getLastD SegV2.dummyWord).endSec -
        (segWords.headD SegV2.dummyWord).start)).1
    hneS rfl rfl hdur20' hcd.1 hchronS hwfS hspanS hgapS
  rw [hdurEq]
  refine ⟨by linarith [hadj.1], by linarith [hadj.2.1], ?_, ?_⟩
  · intro hshort
    rw [hchoiceEq] at hshort
    have := hcd.2.1 hshort
    have := hadj.2.2
    linarith
  · intro hmid
    rw [hchoiceEq] at hmid
    have := hcd.2.2 hmid
    have := hadj.2.2
    linarith

/-- Witness for the C2 amended theorem at the golden transcript: its flattened
word list is chronological with spans ≤ 2s and gaps ≤ 4s, and the single
returned segment (41.1s, `short30`) satisfies all amended bounds. -/
theorem chain'_gap_of_gapOkW :
    ∀ (l : List SegV2.TranscriptWord), gapOkW l = true →
      l.Chain' (fun a b => b.start ≤ a.endSec + 4) := by
  intro l
  induction l with
  | nil => intro h; exact List.chain'_nil
  | cons a t ih =>
      cases t with
      | nil => intro h; simp
      | cons b t2 =>
          intro h
          unfold gapOkW at h
          simp only [Bool.and_eq_true, decide_eq_true_eq] at h
          exact List.chain'_cons.mpr ⟨h.1, ih h.2⟩

theorem C2_duration_bounds_witness :
    20 ≤ ((SegV2.detectEnhancedSegments goldenTranscript [] [] 50 []).headD
        dummySegment).durationSec ∧
    ((SegV2.detectEnhancedSegments goldenTranscript [] [] 50 []).headD
        dummySegment).durationSec ≤ 82 ∧
    (((SegV2.detectEnhancedSegments goldenTranscript [] [] 50 []).headD
        dummySegment).durationChoice = SegV2.DurationChoice.short30 →
      ((SegV2.detectEnhancedSegments goldenTranscript [] [] 50 []).headD
        dummySegment).durationSec < 42 + 6) ∧
    (((SegV2.detectEnhancedSegments goldenTranscript [] [] 50 []).headD
        dummySegment).durationChoice = SegV2.DurationChoice.mid45 →
      ((SegV2.detectEnhancedSegments goldenTranscript [] [] 50 []).headD
        dummySegment).durationSec < 70 + 6) :=
  C2_duration_bounds_amended goldenTranscript [] [] 50 []
    ((SegV2.detectEnhancedSegments goldenTranscript [] [] 50 []).headD dummySegment)
    (by decide) (by decide) (by decide) (by decide) (by decide)
    (chain'_gap_of_gapOkW _ (by decide))
